import Mathlib

/-!
Verification of the ack-reconciliation core of mvfst
(`quic/state/AckHandlers.cpp`): `processAckFrame` and
`commonAckVisitorForAckFrame`, shallowly embedded as executable Lean
functions.

Modelling conventions:
* `TimePoint` and `std::chrono` durations become `Nat` time stamps and
  `Int` durations (an RTT sample is a difference of time stamps).
* The mutable `QuicConnectionStateBase` becomes explicit state passing:
  `processAckFrame` returns the updated connection state together with
  the consolidated `AckEvent` and a `Trace` recording every invocation
  of the injected collaborators (ack visitor, RTT estimator, loss
  visitor, persistent-congestion predicate, congestion controller).
* The fatal `CHECK`/`CHECK_GE`/`CHECK_EQ` assertions become
  `Except.error` results: an error is a fatal, non-recoverable abort.
* `folly::Optional` becomes `Option`; the `outstandings.packetEvents`
  set becomes a `Finset Nat`.
* The ambient clock read `Clock::now()` (line 127 of the source) is
  threaded in as the explicit parameter `nowClock`, as the spec demands
  of a deterministic reimplementation.
-/

namespace quic

/-- The three QUIC packet number spaces. -/
inductive PacketNumberSpace where
  | Initial
  | Handshake
  | AppData
deriving DecidableEq, Repr

/-- One sent-but-unconfirmed packet of the outstanding ledger.
`packetNum` is `packet.header.getPacketSequenceNum()`, `pnSpace` is
`packet.header.getPacketNumberSpace()`, `time` the send time, `frames`
the (opaque, here numbered) protocol frames the packet carried. -/
structure OutstandingPacket where
  packetNum : Nat
  pnSpace : PacketNumberSpace
  time : Nat
  encodedSize : Nat
  isHandshake : Bool
  isAppLimited : Bool
  associatedEvent : Option Nat
  totalBytesSent : Nat
  lastAckedPacketInfo : Option Nat
  frames : List Nat
deriving DecidableEq, Repr

/-- One incoming ack block: the closed range
`[startPacket, endPacket]`. -/
structure AckBlock where
  startPacket : Nat
  endPacket : Nat
deriving DecidableEq, Repr

/-- An incoming `ReadAckFrame`: largest acknowledged packet number, the
peer-reported ack delay, and the ack blocks (sorted by `endPacket`
descending in well-formed frames). -/
structure ReadAckFrame where
  largestAcked : Nat
  ackDelay : Nat
  ackBlocks : List AckBlock
deriving DecidableEq, Repr

/-- One record of `CongestionController::AckEvent::AckPacket`. -/
structure AckPacket where
  sentTime : Nat
  encodedSize : Nat
  lastAckedPacketInfo : Option Nat
  totalBytesSentThen : Nat
  isAppLimited : Bool
deriving DecidableEq, Repr

/-- The consolidated `CongestionController::AckEvent` built by one call
to `processAckFrame`. -/
structure AckEvent where
  ackTime : Nat
  ackedBytes : Nat
  ackedPackets : List AckPacket
  largestAckedPacket : Option Nat
  largestAckedPacketSentTime : Nat
  largestAckedPacketAppLimited : Bool
  mrttSample : Option Int
deriving DecidableEq, Repr

/-- The slice of `conn.lossState` touched by `processAckFrame`. -/
structure LossState where
  totalBytesSent : Nat
  totalBytesAcked : Nat
  totalBytesSentAtLastAck : Nat
  totalBytesAckedAtLastAck : Nat
  lastAckedPacketSentTime : Nat
  lastAckedTime : Nat
deriving DecidableEq, Repr

/-- `conn.outstandings`: the ledger of outstanding packets (ascending
send order), the pending packet-event identifiers, and the derived
counters. -/
structure Outstandings where
  packets : List OutstandingPacket
  packetEvents : Finset Nat
  initialPacketsCount : Nat
  handshakePacketsCount : Nat
  clonedPacketsCount : Nat
deriving DecidableEq

/-- The slice of `QuicConnectionStateBase` used by `processAckFrame`.
`congestionController` records whether a congestion controller is
attached (the C++ tests the pointer for null). -/
structure QuicConnectionStateBase where
  outstandings : Outstandings
  lossState : LossState
  congestionController : Bool
deriving DecidableEq

/-- The two fields of `CongestionController::LossEvent` that
`processAckFrame` reads or writes. -/
structure LossEvent where
  smallestLostSentTime : Option Nat
  largestLostSentTime : Option Nat
  persistentCongestion : Bool
deriving DecidableEq, Repr

/-- Observation trace of one `processAckFrame` call: every invocation
of an injected collaborator, in the order the source makes them.
`ackVisits` records one `(packetNum, frame)` pair per `ackVisitor`
call, `rttUpdates` one `(sample, ackDelay)` pair per `updateRtt` call,
`pcEvals` one `(smallest, largest, result)` triple per
`isPersistentCongestion` call, `ccCalls` one `(ackEvent, lossEvent)`
pair per `onPacketAckOrLoss` call.  `initialAcked`, `handshakeAcked`
and `clonedAcked` are the per-frame decrement amounts applied to the
ledger counters. -/
structure Trace where
  ackVisits : List (Nat × Nat)
  rttUpdates : List (Int × Nat)
  lossVisits : Nat
  lossEventProduced : Option LossEvent
  pcEvals : List (Nat × Nat × Bool)
  ccCalls : List (AckEvent × Option LossEvent)
  initialAcked : Nat
  handshakeAcked : Nat
  clonedAcked : Nat
deriving DecidableEq

/-- Result of a successfully completed (non-aborted) `processAckFrame`
call. -/
structure AckProcessResult where
  conn : QuicConnectionStateBase
  ack : AckEvent
  trace : Trace
deriving DecidableEq

/-- The read-only context of one `processAckFrame` call. -/
structure AckCtx where
  pnSpace : PacketNumberSpace
  frame : ReadAckFrame
  ackReceiveTime : Nat
  nowClock : Nat
deriving DecidableEq

/-- The mutable accumulator of the merge loop of `processAckFrame`:
the `AckEvent` under construction, the connection loss state, the
pending packet events (mutated mid-walk at line 142 of the source),
the three per-frame acked counters (lines 51-53), the
`lastAckedPacketSentTime` local (lines 54-55), and the collaborator
invocations so far.  `fatal` is the sticky flag for the
`CHECK_EQ(PacketNumberSpace::Handshake, currentPacketNumberSpace)`
abort at line 117 of the source. -/
structure AckAccum where
  ack : AckEvent
  lossState : LossState
  packetEvents : Finset Nat
  initialPacketAcked : Nat
  handshakePacketAcked : Nat
  clonedPacketsAcked : Nat
  lastAckedPacketSentTime : Option Nat
  ackVisits : List (Nat × Nat)
  rttUpdates : List (Int × Nat)
  fatal : Bool
deriving DecidableEq

/-- The RTT sample of lines 126-129 of the source: the difference
between `ackReceiveTime` — when it is later than the packet's send
time — or else the ambient clock, and the packet's send time. -/
def rttSampleOf (ctx : AckCtx) (p : OutstandingPacket) : Int :=
  ((if ctx.ackReceiveTime > p.time then ctx.ackReceiveTime else ctx.nowClock : Nat) : Int)
    - (p.time : Int)

/-- Body of the inner loop of `processAckFrame` for one matched
(acked) outstanding packet: lines 111-170 of
`quic/state/AckHandlers.cpp`. -/
def processEntry (ctx : AckCtx) (acc : AckAccum) (p : OutstandingPacket) : AckAccum :=
  -- line 111: needsProcess = no associated event, or the event is
  -- still in outstandings.packetEvents
  let needsProcess : Bool :=
    match p.associatedEvent with
    | none => true
    | some e => decide (e ∈ acc.packetEvents)
  -- lines 113-119, with the CHECK_EQ at line 117: a handshake-flagged
  -- packet in the AppData space is a fatal error
  let fatal : Bool := acc.fatal ||
    (p.isHandshake && needsProcess && decide (p.pnSpace = PacketNumberSpace.AppData))
  let initialPacketAcked : Nat := acc.initialPacketAcked +
    (if p.isHandshake && needsProcess && decide (p.pnSpace = PacketNumberSpace.Initial)
     then 1 else 0)
  let handshakePacketAcked : Nat := acc.handshakePacketAcked +
    (if p.isHandshake && needsProcess && decide (p.pnSpace = PacketNumberSpace.Handshake)
     then 1 else 0)
  -- line 121
  let ackedBytes : Nat := acc.ack.ackedBytes + p.encodedSize
  -- lines 122-124
  let clonedPacketsAcked : Nat := acc.clonedPacketsAcked +
    (if p.associatedEvent.isSome then 1 else 0)
  -- lines 126-129: ackReceiveTime if it is later than the send time,
  -- otherwise the ambient clock
  let rttSample : Int := rttSampleOf ctx p
  -- lines 130-132: feed the estimator only for the frame's largestAcked
  let rttUpdates : List (Int × Nat) :=
    if p.packetNum = ctx.frame.largestAcked
    then acc.rttUpdates ++ [(rttSample, ctx.frame.ackDelay)]
    else acc.rttUpdates
  -- lines 135-144: visit each carried frame, then retire the event
  let ackVisits : List (Nat × Nat) :=
    if needsProcess
    then acc.ackVisits ++ p.frames.map (fun f => (p.packetNum, f))
    else acc.ackVisits
  let packetEvents : Finset Nat :=
    if needsProcess then
      match p.associatedEvent with
      | some e => acc.packetEvents.erase e
      | none => acc.packetEvents
    else acc.packetEvents
  -- lines 145-150
  let updateLargest : Bool :=
    match acc.ack.largestAckedPacket with
    | none => true
    | some l => decide (l < p.packetNum)
  let largestAckedPacket : Option Nat :=
    if updateLargest then some p.packetNum else acc.ack.largestAckedPacket
  let largestAckedPacketSentTime : Nat :=
    if updateLargest then p.time else acc.ack.largestAckedPacketSentTime
  let largestAckedPacketAppLimited : Bool :=
    if updateLargest then p.isAppLimited else acc.ack.largestAckedPacketAppLimited
  -- lines 151-154
  let mrttSample : Option Int :=
    if ctx.ackReceiveTime > p.time
    then some (min (acc.ack.mrttSample.getD rttSample) rttSample)
    else acc.ack.mrttSample
  -- lines 155-157 (line 157 reads the value just incremented at 155)
  let totalBytesAcked : Nat := acc.lossState.totalBytesAcked + p.encodedSize
  let lossState : LossState :=
    { acc.lossState with
      totalBytesAcked := totalBytesAcked
      totalBytesSentAtLastAck := acc.lossState.totalBytesSent
      totalBytesAckedAtLastAck := totalBytesAcked
      lastAckedTime := ctx.ackReceiveTime }
  -- lines 158-160
  let lastAckedPacketSentTime : Option Nat :=
    match acc.lastAckedPacketSentTime with
    | none => some p.time
    | some t => some t
  -- lines 162-169
  let ackedPackets : List AckPacket := acc.ack.ackedPackets ++
    [{ sentTime := p.time
       encodedSize := p.encodedSize
       lastAckedPacketInfo := p.lastAckedPacketInfo
       totalBytesSentThen := p.totalBytesSent
       isAppLimited := p.isAppLimited }]
  { ack := { acc.ack with
      ackedBytes := ackedBytes
      ackedPackets := ackedPackets
      largestAckedPacket := largestAckedPacket
      largestAckedPacketSentTime := largestAckedPacketSentTime
      largestAckedPacketAppLimited := largestAckedPacketAppLimited
      mrttSample := mrttSample }
    lossState := lossState
    packetEvents := packetEvents
    initialPacketAcked := initialPacketAcked
    handshakePacketAcked := handshakePacketAcked
    clonedPacketsAcked := clonedPacketsAcked
    lastAckedPacketSentTime := lastAckedPacketSentTime
    ackVisits := ackVisits
    rttUpdates := rttUpdates
    fatal := fatal }

/-- The inner loop of `processAckFrame` (lines 84-171) over the
reversed ledger (head = most recently sent).  Returns
`(kept, remaining, acc)`: `kept` are the walked-over packets of a
different packet number space (skipped but retained, lines 88-104),
`remaining` is the unwalked part of the reversed ledger starting at the
packet that broke the run (line 105-107), and `acc` the accumulator
after processing every acked packet of the run.  The acked packets are
dropped, which is the net effect of the incremental
`outstandings.packets.erase` range calls at lines 94-102 and 176-182. -/
def innerWalk (ctx : AckCtx) (b : AckBlock) :
    List OutstandingPacket → AckAccum →
    List OutstandingPacket × List OutstandingPacket × AckAccum
  | [], acc => ([], [], acc)
  | p :: rest, acc =>
    if p.pnSpace ≠ ctx.pnSpace then
      -- lines 88-104: skip (and keep) a packet of another space
      let r := innerWalk ctx b rest acc
      (p :: r.1, r.2.1, r.2.2)
    else if p.packetNum < b.startPacket then
      -- lines 105-107: the run ends below the block's startPacket
      ([], p :: rest, acc)
    else
      -- lines 108-170: the packet is acked by this block
      innerWalk ctx b rest (processEntry ctx acc p)

/-- The outer loop of `processAckFrame` (lines 57-184) over the ack
blocks, walking the reversed ledger.  For each block, the
`std::lower_bound` at lines 61-67 positions the cursor at the first
packet (in reverse order) whose number is `≤ endPacket`; the packets
passed over stay in the ledger.  If no such packet exists the whole
loop stops (lines 68-79).  Returns the surviving reversed ledger and
the final accumulator. -/
def processBlocks (ctx : AckCtx) :
    List AckBlock → List OutstandingPacket → AckAccum →
    List OutstandingPacket × AckAccum
  | [], rev, acc => (rev, acc)
  | b :: bs, rev, acc =>
    match rev with
    | [] => (rev, acc)
    | _ :: _ =>
      let skipped := rev.takeWhile (fun p => decide (b.endPacket < p.packetNum))
      let rest := rev.dropWhile (fun p => decide (b.endPacket < p.packetNum))
      match rest with
      | [] => (rev, acc)
      | _ :: _ =>
        let w := innerWalk ctx b rest acc
        let t := processBlocks ctx bs w.2.1 w.2.2
        (skipped ++ w.1 ++ t.1, t.2)

/-- The freshly initialised accumulator of `processAckFrame`
(lines 43-55 of the source): an empty `AckEvent` stamped with the ack
receive time, the connection's current loss state and pending packet
events, zeroed counters, and no collaborator invocations yet. -/
def initAccum (conn : QuicConnectionStateBase) (ackReceiveTime : Nat) : AckAccum :=
  { ack := { ackTime := ackReceiveTime, ackedBytes := 0, ackedPackets := []
             largestAckedPacket := none, largestAckedPacketSentTime := 0
             largestAckedPacketAppLimited := false, mrttSample := none }
    lossState := conn.lossState
    packetEvents := conn.outstandings.packetEvents
    initialPacketAcked := 0, handshakePacketAcked := 0, clonedPacketsAcked := 0
    lastAckedPacketSentTime := none, ackVisits := [], rttUpdates := []
    fatal := false }

/-- The whole merge loop of `processAckFrame` (lines 50-184): walk the
reversed ledger against the ack blocks starting from the fresh
accumulator.  `getLastOutstandingPacket` (line 50) is not part of the
sources; Modelled from the spec: the ledger cursor starts at the tail
(the highest packet number overall), so the walk starts from the full
reversed ledger. -/
def walkResult (conn : QuicConnectionStateBase) (pnSpace : PacketNumberSpace)
    (frame : ReadAckFrame) (ackReceiveTime nowClock : Nat) :
    List OutstandingPacket × AckAccum :=
  processBlocks { pnSpace := pnSpace, frame := frame
                  ackReceiveTime := ackReceiveTime, nowClock := nowClock }
    frame.ackBlocks conn.outstandings.packets.reverse (initAccum conn ackReceiveTime)

/-- `processAckFrame` of `quic/state/AckHandlers.cpp` (lines 35-218).

The ambient clock (`Clock::now()`, line 127) is the explicit
`nowClock` parameter.  Three collaborators of the source are not part
of the sources and are modelled from the spec:
* `getLastOutstandingPacket` (line 50) — Modelled from the spec: the
  ledger cursor starts at the tail of the ledger, the most recently
  sent packet, so the walk starts from the full reversed ledger;
* `updateRtt` (line 131) — Modelled from the spec: the RTT estimator
  consumes a raw `(sample, ackDelay)` pair, recorded in the trace;
* `handleAckForLoss` (line 200) — Modelled from the spec: the Loss
  Detector hand-off applies the injected `lossVisitor` exactly once,
  on the updated connection state and the consolidated ack event, and
  yields an optional `LossEvent` (spec section 6).
The persistent-congestion predicate (line 210) is likewise external
and passed in as the `isPersistentCongestion` parameter.

A fatal `CHECK` failure is `Except.error`. -/
def processAckFrame (conn : QuicConnectionStateBase) (pnSpace : PacketNumberSpace)
    (frame : ReadAckFrame)
    (lossVisitor : QuicConnectionStateBase → AckEvent → PacketNumberSpace → Option LossEvent)
    (isPersistentCongestion : QuicConnectionStateBase → Nat → Nat → Bool)
    (ackReceiveTime : Nat) (nowClock : Nat) : Except String AckProcessResult :=
  -- lines 43-184
  let res := walkResult conn pnSpace frame ackReceiveTime nowClock
  let keptRev := res.1
  let acc := res.2
  if acc.fatal then Except.error "CHECK_EQ packet number space" else
  -- lines 185-187
  let lossState1 : LossState :=
    match acc.lastAckedPacketSentTime with
    | some t => { acc.lossState with lastAckedPacketSentTime := t }
    | none => acc.lossState
  -- lines 188-193: the decrements, each guarded by a fatal CHECK_GE
  if conn.outstandings.initialPacketsCount < acc.initialPacketAcked then
    Except.error "CHECK_GE initialPacketsCount" else
  if conn.outstandings.handshakePacketsCount < acc.handshakePacketAcked then
    Except.error "CHECK_GE handshakePacketsCount" else
  if conn.outstandings.clonedPacketsCount < acc.clonedPacketsAcked then
    Except.error "CHECK_GE clonedPacketsCount" else
  let outstandings1 : Outstandings :=
    { packets := keptRev.reverse
      packetEvents := acc.packetEvents
      initialPacketsCount := conn.outstandings.initialPacketsCount - acc.initialPacketAcked
      handshakePacketsCount := conn.outstandings.handshakePacketsCount - acc.handshakePacketAcked
      clonedPacketsCount := conn.outstandings.clonedPacketsCount - acc.clonedPacketsAcked }
  -- lines 194-199: the ledger size invariants, fatal on violation
  if outstandings1.packets.length <
      outstandings1.handshakePacketsCount + outstandings1.initialPacketsCount then
    Except.error "CHECK_GE outstanding packets count vs initial plus handshake" else
  if outstandings1.packets.length < outstandings1.clonedPacketsCount then
    Except.error "CHECK_GE outstanding packets count vs cloned" else
  let conn1 : QuicConnectionStateBase :=
    { conn with outstandings := outstandings1, lossState := lossState1 }
  -- line 200: exactly one Loss Detector hand-off
  let lossEvent := lossVisitor conn1 acc.ack pnSpace
  let baseTrace : Trace :=
    { ackVisits := acc.ackVisits, rttUpdates := acc.rttUpdates
      lossVisits := 1, lossEventProduced := lossEvent
      pcEvals := [], ccCalls := []
      initialAcked := acc.initialPacketAcked
      handshakeAcked := acc.handshakePacketAcked
      clonedAcked := acc.clonedPacketsAcked }
  -- lines 201-217
  if conn.congestionController = true ∧
      (acc.ack.largestAckedPacket.isSome = true ∨ lossEvent.isSome = true) then
    match lossEvent with
    | some le =>
      -- line 204: CHECK both lost sent times are present
      match le.smallestLostSentTime, le.largestLostSentTime with
      | some s, some l =>
        -- lines 210-213
        let pc := isPersistentCongestion conn1 s l
        let le1 : LossEvent := { le with persistentCongestion := pc }
        Except.ok { conn := conn1, ack := acc.ack
                    trace := { baseTrace with
                               pcEvals := [(s, l, pc)]
                               ccCalls := [(acc.ack, some le1)] } }
      | _, _ => Except.error "CHECK lossEvent lost sent times"
    | none =>
      Except.ok { conn := conn1, ack := acc.ack
                  trace := { baseTrace with ccCalls := [(acc.ack, none)] } }
  else
    Except.ok { conn := conn1, ack := acc.ack, trace := baseTrace }

/-- One interval of a `WriteAckFrame`'s ack blocks.  The source field
`end` is a Lean keyword and is rendered `endPt`. -/
structure Interval where
  start : Nat
  endPt : Nat
deriving DecidableEq, Repr

/-- An outgoing ack frame that has itself been confirmed delivered. -/
structure WriteAckFrame where
  ackBlocks : List Interval
deriving DecidableEq, Repr

/-- The ack interval tracker.  Modelled from the spec: the underlying
`IntervalSet` container is not part of the sources; the spec describes
it as a disjoint-interval set of received packet numbers supporting
withdrawal of inclusive ranges, so it is modelled extensionally as the
finite set of tracked packet numbers. -/
structure AckState where
  acks : Finset Nat
deriving DecidableEq

/-- Modelled from the spec: the purge threshold constant
`kAckPurgingThresh` is declared outside the sources; the claims do not
depend on its value. -/
def kAckPurgingThresh : Nat := 10

/-- Modelled from the spec: `IntervalSet::withdraw` removes an
inclusive range of packet numbers from the tracked set. -/
def withdrawInterval (s : Finset Nat) (iv : Interval) : Finset Nat :=
  s.filter (fun n => n < iv.start ∨ iv.endPt < n)

/-- `commonAckVisitorForAckFrame` of `quic/state/AckHandlers.cpp`
(lines 220-240): withdraw each confirmed ack block, iterating the
blocks in reverse (`crbegin` to `crend`, lines 229-233), then if the
frame is non-empty and its front block's `end` (the largest
acknowledged number) exceeds the purge threshold, additionally
withdraw `[0, largestAcked - kAckPurgingThresh]` (lines 234-239). -/
def commonAckVisitorForAckFrame (ackState : AckState) (frame : WriteAckFrame) : AckState :=
  let acks1 := frame.ackBlocks.reverse.foldl withdrawInterval ackState.acks
  match frame.ackBlocks with
  | [] => { acks := acks1 }
  | blk :: _ =>
    let largestAcked := blk.endPt
    if kAckPurgingThresh < largestAcked then
      { acks := withdrawInterval acks1 { start := 0, endPt := largestAcked - kAckPurgingThresh } }
    else
      { acks := acks1 }

/-! ## Derived notions used by the verification -/

/-- A packet number is covered by one of a frame's ack blocks. -/
def coveredByBlocks (blocks : List AckBlock) (n : Nat) : Bool :=
  blocks.any (fun b => decide (b.startPacket ≤ n) && decide (n ≤ b.endPacket))

/-- The effect of processing one acked packet on the pending
packet-events set (the `packetEvents` component of `processEntry`). -/
def eventsStepOf (p : OutstandingPacket) (evs : Finset Nat) : Finset Nat :=
  match p.associatedEvent with
  | none => evs
  | some e => if e ∈ evs then evs.erase e else evs

/-- The ack-visitor invocations processing one acked packet produces:
one `(packetNum, frame)` pair per carried frame when the packet needs
processing (no associated event, or its event still pending), nothing
otherwise. -/
def visitsOf (p : OutstandingPacket) (evs : Finset Nat) : List (Nat × Nat) :=
  let needsProcess : Bool :=
    match p.associatedEvent with
    | none => true
    | some e => decide (e ∈ evs)
  if needsProcess then p.frames.map (fun f => (p.packetNum, f)) else []

/-- The ack-visitor invocations produced by processing a run of acked
packets in order, threading the pending packet-events set through. -/
def visitsSpec (l : List OutstandingPacket) (evs : Finset Nat) : List (Nat × Nat) :=
  match l with
  | [] => []
  | p :: rest => visitsOf p evs ++ visitsSpec rest (eventsStepOf p evs)

/-- Selector for ack-visitor invocations attributable to one of two
packet numbers. -/
def pairVisit (pnA pnB : Nat) (v : Nat × Nat) : Bool :=
  decide (v.1 = pnA) || decide (v.1 = pnB)

/-- Selector for outstanding packets carrying one of two packet
numbers. -/
def pairPacket (pnA pnB : Nat) (x : OutstandingPacket) : Bool :=
  decide (x.packetNum = pnA) || decide (x.packetNum = pnB)

/-- Minimum of a list of integers, `none` on the empty list, folded
the way lines 151-154 of the source fold the per-frame minimum RTT. -/
def optMin (l : List Int) : Option Int :=
  l.foldl (fun m x => some (match m with | none => x | some y => min y x)) none

/-- Invariant of the merge-loop accumulator: a largest-acked packet
has been recorded iff at least one packet was matched. -/
def accLargestInv (acc : AckAccum) : Prop :=
  acc.ack.largestAckedPacket.isSome = true ↔ acc.ack.ackedPackets ≠ []

/-- Invariant of the merge-loop accumulator: the running minimum RTT
equals the minimum of the per-entry samples of the matched packets
whose send time precedes the ack receive time. -/
def mrttInv (ackReceiveTime : Nat) (acc : AckAccum) : Prop :=
  acc.ack.mrttSample = optMin
    ((acc.ack.ackedPackets.filter (fun a => decide (a.sentTime < ackReceiveTime))).map
      (fun a => (ackReceiveTime : Int) - (a.sentTime : Int)))

/-! ## Concrete instances used by witnesses and counterexamples -/

/-- An all-zero loss state. -/
def zeroLossState : LossState := ⟨0, 0, 0, 0, 0, 0⟩

/-- A loss visitor that never reports a loss. -/
def lossVisitorNone :
    QuicConnectionStateBase → AckEvent → PacketNumberSpace → Option LossEvent :=
  fun _ _ _ => none

/-- A loss visitor that always reports lost packets sent between times
1 and 2. -/
def lossVisitorConst :
    QuicConnectionStateBase → AckEvent → PacketNumberSpace → Option LossEvent :=
  fun _ _ _ => some ⟨some 1, some 2, false⟩

/-- A persistent-congestion predicate that always answers `true`. -/
def pcAlwaysTrue : QuicConnectionStateBase → Nat → Nat → Bool := fun _ _ _ => true

/-- One outstanding AppData packet, number 3, sent at time 4, 7 bytes,
carrying one frame. -/
def packetW1 : OutstandingPacket :=
  ⟨3, PacketNumberSpace.AppData, 4, 7, false, false, none, 0, none, [0]⟩

/-- A connection with `packetW1` outstanding and a congestion
controller attached. -/
def connW1 : QuicConnectionStateBase := ⟨⟨[packetW1], ∅, 0, 0, 0⟩, zeroLossState, true⟩

/-- An ack frame acknowledging exactly packet 3. -/
def frameW1 : ReadAckFrame := ⟨3, 1, [⟨3, 3⟩]⟩

/-- The ack event produced by processing `frameW1` against `connW1` at
receive time 9. -/
def ackW1 : AckEvent := ⟨9, 7, [⟨4, 7, none, 0, false⟩], some 3, 4, false, some 5⟩

/-- The result of processing `frameW1` against `connW1` at receive
time 9 (ambient clock 10). -/
def resW1 : AckProcessResult :=
  ⟨⟨⟨[], ∅, 0, 0, 0⟩, ⟨0, 7, 0, 7, 4, 9⟩, true⟩, ackW1,
   ⟨[(3, 0)], [(5, 1)], 1, none, [], [(ackW1, none)], 0, 0, 0⟩⟩

/-- A connection with nothing outstanding and no congestion
controller. -/
def connNoCC : QuicConnectionStateBase := ⟨⟨[], ∅, 0, 0, 0⟩, zeroLossState, false⟩

/-- A connection with nothing outstanding and a congestion controller
attached. -/
def connCC : QuicConnectionStateBase := ⟨⟨[], ∅, 0, 0, 0⟩, zeroLossState, true⟩

/-- An ack frame with no ack blocks. -/
def emptyFrame : ReadAckFrame := ⟨0, 0, []⟩

/-- The empty ack event stamped with receive time 5. -/
def ackW2 : AckEvent := ⟨5, 0, [], none, 0, false, none⟩

/-- The result of processing `emptyFrame` against `connCC` with
`lossVisitorConst` at receive time 5. -/
def resW2 : AckProcessResult :=
  ⟨connCC, ackW2,
   ⟨[], [], 1, some ⟨some 1, some 2, false⟩, [(1, 2, true)],
    [(ackW2, some ⟨some 1, some 2, true⟩)], 0, 0, 0⟩⟩

/-- Outstanding AppData packet 100, sent at time 3 (11 bytes). -/
def packetBugA100 : OutstandingPacket :=
  ⟨100, PacketNumberSpace.AppData, 3, 11, false, false, none, 0, none, [0]⟩

/-- Outstanding Handshake packet 2, sent at time 4 (5 bytes, handshake
flagged). -/
def packetBugH2 : OutstandingPacket :=
  ⟨2, PacketNumberSpace.Handshake, 4, 5, true, false, none, 0, none, [0]⟩

/-- Outstanding AppData packet 200, sent at time 6 (13 bytes). -/
def packetBugA200 : OutstandingPacket :=
  ⟨200, PacketNumberSpace.AppData, 6, 13, false, false, none, 0, none, [0]⟩

/-- A connection whose ledger interleaves the spaces in send order:
AppData 100, then Handshake 2, then AppData 200 (each space ascending
on its own). -/
def connBug : QuicConnectionStateBase :=
  ⟨⟨[packetBugA100, packetBugH2, packetBugA200], ∅, 0, 1, 0⟩, zeroLossState, false⟩

/-- An AppData ack frame whose only block is `[10, 20]` — every packet
number it references is absent from the ledger of `connBug`. -/
def frameBug : ReadAckFrame := ⟨20, 0, [⟨10, 20⟩]⟩

/-- A connection with one AppData packet, number 5, sent at time 3. -/
def connC3 : QuicConnectionStateBase :=
  ⟨⟨[⟨5, PacketNumberSpace.AppData, 3, 10, false, false, none, 0, none, [0]⟩],
    ∅, 0, 0, 0⟩, zeroLossState, false⟩

/-- An ack frame acknowledging exactly packet 5 with ack delay 2. -/
def frameC3 : ReadAckFrame := ⟨5, 2, [⟨5, 5⟩]⟩

/-- Clone packet number 1 (sent at time 1, 10 bytes, one frame),
member of retransmission group 7. -/
def packetClone1 : OutstandingPacket :=
  ⟨1, PacketNumberSpace.AppData, 1, 10, false, false, some 7, 0, none, [4]⟩

/-- Clone packet number 2 (sent at time 2, 11 bytes, one frame), the
other member of retransmission group 7. -/
def packetClone2 : OutstandingPacket :=
  ⟨2, PacketNumberSpace.AppData, 2, 11, false, false, some 7, 0, none, [5]⟩

/-- A connection whose ledger holds exactly the two clones of event 7,
with the event pending. -/
def connDedup : QuicConnectionStateBase :=
  ⟨⟨[packetClone1, packetClone2], {7}, 0, 0, 2⟩, zeroLossState, false⟩

/-- An ack frame acknowledging both clones. -/
def frameDedupBoth : ReadAckFrame := ⟨2, 0, [⟨1, 2⟩]⟩

/-- An ack frame acknowledging only the higher clone, number 2. -/
def frameDedupOne : ReadAckFrame := ⟨2, 0, [⟨2, 2⟩]⟩

/-! ## Facts about a successful `processAckFrame` call -/

/-- Everything the final section of `processAckFrame` (lines 185-217)
guarantees about a successfully completed call, stated relative to the
result of the merge loop `walkResult`. -/
structure PAFacts (conn : QuicConnectionStateBase) (pnSpace : PacketNumberSpace)
    (frame : ReadAckFrame)
    (lossVisitor : QuicConnectionStateBase → AckEvent → PacketNumberSpace → Option LossEvent)
    (isPersistentCongestion : QuicConnectionStateBase → Nat → Nat → Bool)
    (ackReceiveTime nowClock : Nat) (r : AckProcessResult) : Prop where
  ack_eq : r.ack = (walkResult conn pnSpace frame ackReceiveTime nowClock).2.ack
  ackVisits_eq : r.trace.ackVisits =
    (walkResult conn pnSpace frame ackReceiveTime nowClock).2.ackVisits
  rttUpdates_eq : r.trace.rttUpdates =
    (walkResult conn pnSpace frame ackReceiveTime nowClock).2.rttUpdates
  lossVisits_eq : r.trace.lossVisits = 1
  initialAcked_eq : r.trace.initialAcked =
    (walkResult conn pnSpace frame ackReceiveTime nowClock).2.initialPacketAcked
  handshakeAcked_eq : r.trace.handshakeAcked =
    (walkResult conn pnSpace frame ackReceiveTime nowClock).2.handshakePacketAcked
  clonedAcked_eq : r.trace.clonedAcked =
    (walkResult conn pnSpace frame ackReceiveTime nowClock).2.clonedPacketsAcked
  packets_eq : r.conn.outstandings.packets =
    (walkResult conn pnSpace frame ackReceiveTime nowClock).1.reverse
  packetEvents_eq : r.conn.outstandings.packetEvents =
    (walkResult conn pnSpace frame ackReceiveTime nowClock).2.packetEvents
  initialCount_eq : r.conn.outstandings.initialPacketsCount =
    conn.outstandings.initialPacketsCount -
      (walkResult conn pnSpace frame ackReceiveTime nowClock).2.initialPacketAcked
  handshakeCount_eq : r.conn.outstandings.handshakePacketsCount =
    conn.outstandings.handshakePacketsCount -
      (walkResult conn pnSpace frame ackReceiveTime nowClock).2.handshakePacketAcked
  clonedCount_eq : r.conn.outstandings.clonedPacketsCount =
    conn.outstandings.clonedPacketsCount -
      (walkResult conn pnSpace frame ackReceiveTime nowClock).2.clonedPacketsAcked
  initialAcked_le : (walkResult conn pnSpace frame ackReceiveTime nowClock).2.initialPacketAcked ≤
    conn.outstandings.initialPacketsCount
  handshakeAcked_le : (walkResult conn pnSpace frame ackReceiveTime nowClock).2.handshakePacketAcked ≤
    conn.outstandings.handshakePacketsCount
  clonedAcked_le : (walkResult conn pnSpace frame ackReceiveTime nowClock).2.clonedPacketsAcked ≤
    conn.outstandings.clonedPacketsCount
  size_invariant : r.conn.outstandings.handshakePacketsCount +
      r.conn.outstandings.initialPacketsCount ≤ r.conn.outstandings.packets.length
  cloned_invariant : r.conn.outstandings.clonedPacketsCount ≤ r.conn.outstandings.packets.length
  cc_eq : r.conn.congestionController = conn.congestionController
  lossEventProduced_eq : r.trace.lossEventProduced = lossVisitor r.conn r.ack pnSpace
  ccCalls_le : r.trace.ccCalls.length ≤ 1
  ccCalls_iff : (conn.congestionController = true ∧
      (r.ack.largestAckedPacket.isSome = true ∨ r.trace.lossEventProduced.isSome = true)) ↔
      r.trace.ccCalls.length = 1
  pc_eval : ∀ le, conn.congestionController = true →
      r.trace.lossEventProduced = some le →
      ∃ s l, le.smallestLostSentTime = some s ∧ le.largestLostSentTime = some l ∧
        r.trace.pcEvals = [(s, l, isPersistentCongestion r.conn s l)] ∧
        r.trace.ccCalls =
          [(r.ack, some { le with persistentCongestion := isPersistentCongestion r.conn s l })]

/-- The final section of `processAckFrame` establishes `PAFacts` on
every successful (non-aborted) call. -/
theorem processAckFrame_ok_facts (conn : QuicConnectionStateBase)
    (pnSpace : PacketNumberSpace) (frame : ReadAckFrame)
    (lossVisitor : QuicConnectionStateBase → AckEvent → PacketNumberSpace → Option LossEvent)
    (isPersistentCongestion : QuicConnectionStateBase → Nat → Nat → Bool)
    (ackReceiveTime nowClock : Nat) (r : AckProcessResult)
    (h : processAckFrame conn pnSpace frame lossVisitor isPersistentCongestion
      ackReceiveTime nowClock = Except.ok r) :
    PAFacts conn pnSpace frame lossVisitor isPersistentCongestion ackReceiveTime nowClock r := by
  simp only [processAckFrame] at h
  split at h
  · exact Except.noConfusion h
  · split at h
    · exact Except.noConfusion h
    · rename_i hg2
      split at h
      · exact Except.noConfusion h
      · rename_i hg3
        split at h
        · exact Except.noConfusion h
        · rename_i hg4
          split at h
          · exact Except.noConfusion h
          · rename_i hg5
            split at h
            · exact Except.noConfusion h
            · rename_i hg6
              split at h
              · rename_i hccond
                split at h
                · rename_i le hle
                  split at h
                  · rename_i s l hs hl
                    injection h with h
                    subst h
                    exact
                      { ack_eq := rfl
                        ackVisits_eq := rfl
                        rttUpdates_eq := rfl
                        lossVisits_eq := rfl
                        initialAcked_eq := rfl
                        handshakeAcked_eq := rfl
                        clonedAcked_eq := rfl
                        packets_eq := rfl
                        packetEvents_eq := rfl
                        initialCount_eq := rfl
                        handshakeCount_eq := rfl
                        clonedCount_eq := rfl
                        initialAcked_le := Nat.le_of_not_lt hg2
                        handshakeAcked_le := Nat.le_of_not_lt hg3
                        clonedAcked_le := Nat.le_of_not_lt hg4
                        size_invariant := Nat.le_of_not_lt hg5
                        cloned_invariant := Nat.le_of_not_lt hg6
                        cc_eq := rfl
                        lossEventProduced_eq := rfl
                        ccCalls_le := Nat.le_refl 1
                        ccCalls_iff := iff_of_true hccond rfl
                        pc_eval := by
                          intro le2 hcc hle2
                          have hee := Option.some.inj (hle.symm.trans hle2)
                          subst hee
                          exact ⟨s, l, hs, hl, rfl, rfl⟩ }
                  · exact Except.noConfusion h
                · rename_i hle
                  injection h with h
                  subst h
                  exact
                    { ack_eq := rfl
                      ackVisits_eq := rfl
                      rttUpdates_eq := rfl
                      lossVisits_eq := rfl
                      initialAcked_eq := rfl
                      handshakeAcked_eq := rfl
                      clonedAcked_eq := rfl
                      packets_eq := rfl
                      packetEvents_eq := rfl
                      initialCount_eq := rfl
                      handshakeCount_eq := rfl
                      clonedCount_eq := rfl
                      initialAcked_le := Nat.le_of_not_lt hg2
                      handshakeAcked_le := Nat.le_of_not_lt hg3
                      clonedAcked_le := Nat.le_of_not_lt hg4
                      size_invariant := Nat.le_of_not_lt hg5
                      cloned_invariant := Nat.le_of_not_lt hg6
                      cc_eq := rfl
                      lossEventProduced_eq := rfl
                      ccCalls_le := Nat.le_refl 1
                      ccCalls_iff := iff_of_true hccond rfl
                      pc_eval := by
                        intro le2 hcc hle2
                        exact Option.noConfusion (hle.symm.trans hle2) }
              · rename_i hccond
                injection h with h
                subst h
                exact
                  { ack_eq := rfl
                    ackVisits_eq := rfl
                    rttUpdates_eq := rfl
                    lossVisits_eq := rfl
                    initialAcked_eq := rfl
                    handshakeAcked_eq := rfl
                    clonedAcked_eq := rfl
                    packets_eq := rfl
                    packetEvents_eq := rfl
                    initialCount_eq := rfl
                    handshakeCount_eq := rfl
                    clonedCount_eq := rfl
                    initialAcked_le := Nat.le_of_not_lt hg2
                    handshakeAcked_le := Nat.le_of_not_lt hg3
                    clonedAcked_le := Nat.le_of_not_lt hg4
                    size_invariant := Nat.le_of_not_lt hg5
                    cloned_invariant := Nat.le_of_not_lt hg6
                    cc_eq := rfl
                    lossEventProduced_eq := rfl
                    ccCalls_le := Nat.zero_le 1
                    ccCalls_iff := iff_of_false hccond (by simp)
                    pc_eval := by
                      intro le2 hcc hle2
                      exact absurd ⟨hcc, Or.inr (congrArg Option.isSome hle2)⟩ hccond }

/-! ## The largest-acked / matched-packet invariant -/

lemma processEntry_largest_isSome (ctx : AckCtx) (acc : AckAccum) (p : OutstandingPacket) :
    (processEntry ctx acc p).ack.largestAckedPacket.isSome = true := by
  simp only [processEntry]
  cases hl : acc.ack.largestAckedPacket with
  | none => simp [hl]
  | some l =>
    simp only [hl]
    split <;> simp

lemma processEntry_ackedPackets_ne (ctx : AckCtx) (acc : AckAccum) (p : OutstandingPacket) :
    (processEntry ctx acc p).ack.ackedPackets ≠ [] := by
  simp [processEntry]

lemma accLargestInv_processEntry (ctx : AckCtx) (acc : AckAccum) (p : OutstandingPacket) :
    accLargestInv (processEntry ctx acc p) :=
  ⟨fun _ => processEntry_ackedPackets_ne ctx acc p,
   fun _ => processEntry_largest_isSome ctx acc p⟩

lemma accLargestInv_innerWalk (ctx : AckCtx) (b : AckBlock) :
    ∀ (l : List OutstandingPacket) (acc : AckAccum), accLargestInv acc →
      accLargestInv (innerWalk ctx b l acc).2.2 := by
  intro l
  induction l with
  | nil => intro acc h; simpa [innerWalk] using h
  | cons p rest ih =>
    intro acc h
    simp only [innerWalk]
    split
    · exact ih acc h
    · split
      · exact h
      · exact ih (processEntry ctx acc p) (accLargestInv_processEntry ctx acc p)

lemma accLargestInv_processBlocks (ctx : AckCtx) :
    ∀ (blocks : List AckBlock) (rev : List OutstandingPacket) (acc : AckAccum),
      accLargestInv acc → accLargestInv (processBlocks ctx blocks rev acc).2 := by
  intro blocks
  induction blocks with
  | nil => intro rev acc h; simpa [processBlocks] using h
  | cons b bs ih =>
    intro rev acc h
    simp only [processBlocks]
    split
    · exact h
    · split
      · exact h
      · exact ih _ _ (accLargestInv_innerWalk ctx b _ acc h)

lemma accLargestInv_walkResult (conn : QuicConnectionStateBase) (pnSpace : PacketNumberSpace)
    (frame : ReadAckFrame) (ackReceiveTime nowClock : Nat) :
    accLargestInv (walkResult conn pnSpace frame ackReceiveTime nowClock).2 :=
  accLargestInv_processBlocks _ _ _ _ (by simp [accLargestInv, initAccum])

/-! ## Claim C1 -/

/-- Claim C1: after every successful call to `processAckFrame` the
Outstanding Ledger invariants hold — the ledger is at least as long as
`initialPacketsCount + handshakePacketsCount` and at least as long as
`clonedPacketsCount` — and the per-frame decrements never drive any of
the three counters below zero: each post-call counter is the pre-call
counter minus a decrement that the (fatal-on-violation) `CHECK_GE`
guards proved to be no larger than the counter, so each counter only
decreases.  A violated check is `Except.error`, the model of the fatal
(non-recoverable) `CHECK` abort. -/
theorem processAckFrame_ledger_invariants (conn : QuicConnectionStateBase)
    (pnSpace : PacketNumberSpace) (frame : ReadAckFrame)
    (lossVisitor : QuicConnectionStateBase → AckEvent → PacketNumberSpace → Option LossEvent)
    (isPersistentCongestion : QuicConnectionStateBase → Nat → Nat → Bool)
    (ackReceiveTime nowClock : Nat) (r : AckProcessResult)
    (h : processAckFrame conn pnSpace frame lossVisitor isPersistentCongestion
      ackReceiveTime nowClock = Except.ok r) :
    r.conn.outstandings.initialPacketsCount + r.conn.outstandings.handshakePacketsCount ≤
        r.conn.outstandings.packets.length ∧
      r.conn.outstandings.clonedPacketsCount ≤ r.conn.outstandings.packets.length ∧
      r.conn.outstandings.initialPacketsCount ≤ conn.outstandings.initialPacketsCount ∧
      r.conn.outstandings.handshakePacketsCount ≤ conn.outstandings.handshakePacketsCount ∧
      r.conn.outstandings.clonedPacketsCount ≤ conn.outstandings.clonedPacketsCount := by
  have F := processAckFrame_ok_facts conn pnSpace frame lossVisitor isPersistentCongestion
    ackReceiveTime nowClock r h
  have h1 := F.size_invariant
  have h2 := F.cloned_invariant
  have h3 := F.initialCount_eq
  have h4 := F.handshakeCount_eq
  have h5 := F.clonedCount_eq
  exact ⟨by omega, h2, by omega, by omega, by omega⟩

/-- Witness for C1: the invariants at the concrete run acking packet 3
of `connW1`. -/
theorem processAckFrame_ledger_invariants_witness :
    resW1.conn.outstandings.initialPacketsCount + resW1.conn.outstandings.handshakePacketsCount ≤
        resW1.conn.outstandings.packets.length ∧
      resW1.conn.outstandings.clonedPacketsCount ≤ resW1.conn.outstandings.packets.length ∧
      resW1.conn.outstandings.initialPacketsCount ≤ connW1.outstandings.initialPacketsCount ∧
      resW1.conn.outstandings.handshakePacketsCount ≤ connW1.outstandings.handshakePacketsCount ∧
      resW1.conn.outstandings.clonedPacketsCount ≤ connW1.outstandings.clonedPacketsCount :=
  processAckFrame_ledger_invariants connW1 PacketNumberSpace.AppData frameW1
    lossVisitorNone pcAlwaysTrue 9 10 resW1 rfl

/-! ## Claim C9 -/

/-- Claim C9: the Loss Detector hand-off happens exactly once per
completed `processAckFrame` call, whether or not any ack block matched
any outstanding packet, and the loss event recorded is exactly the
loss visitor applied (once) to the updated connection state and the
consolidated ack event.  The hand-off helper `handleAckForLoss` is not
part of the sources and is modelled from the spec as a single
`LossVisitor` application (spec section 6). -/
theorem processAckFrame_loss_detector_once (conn : QuicConnectionStateBase)
    (pnSpace : PacketNumberSpace) (frame : ReadAckFrame)
    (lossVisitor : QuicConnectionStateBase → AckEvent → PacketNumberSpace → Option LossEvent)
    (isPersistentCongestion : QuicConnectionStateBase → Nat → Nat → Bool)
    (ackReceiveTime nowClock : Nat) (r : AckProcessResult)
    (h : processAckFrame conn pnSpace frame lossVisitor isPersistentCongestion
      ackReceiveTime nowClock = Except.ok r) :
    r.trace.lossVisits = 1 ∧
      r.trace.lossEventProduced = lossVisitor r.conn r.ack pnSpace := by
  have F := processAckFrame_ok_facts conn pnSpace frame lossVisitor isPersistentCongestion
    ackReceiveTime nowClock r h
  exact ⟨F.lossVisits_eq, F.lossEventProduced_eq⟩

/-- Witness for C9 at the concrete run of `connW1`, where no loss is
reported. -/
theorem processAckFrame_loss_detector_once_witness :
    resW1.trace.lossVisits = 1 ∧
      resW1.trace.lossEventProduced =
        lossVisitorNone resW1.conn resW1.ack PacketNumberSpace.AppData :=
  processAckFrame_loss_detector_once connW1 PacketNumberSpace.AppData frameW1
    lossVisitorNone pcAlwaysTrue 9 10 resW1 rfl

/-! ## Claim C4 -/

/-- Claim C4: the congestion controller is notified at most once per
completed `processAckFrame` call — `ccCalls` never holds more than one
`onPacketAckOrLoss` invocation, however many ack blocks matched — and
it is notified exactly once whenever a congestion controller is
attached and either some packet was acked (the ack event's matched
packet list is non-empty) or the Loss Detector produced a loss
event. -/
theorem processAckFrame_cc_notified_at_most_once (conn : QuicConnectionStateBase)
    (pnSpace : PacketNumberSpace) (frame : ReadAckFrame)
    (lossVisitor : QuicConnectionStateBase → AckEvent → PacketNumberSpace → Option LossEvent)
    (isPersistentCongestion : QuicConnectionStateBase → Nat → Nat → Bool)
    (ackReceiveTime nowClock : Nat) (r : AckProcessResult)
    (h : processAckFrame conn pnSpace frame lossVisitor isPersistentCongestion
      ackReceiveTime nowClock = Except.ok r) :
    r.trace.ccCalls.length ≤ 1 ∧
      (conn.congestionController = true →
        (r.ack.ackedPackets ≠ [] ∨ r.trace.lossEventProduced.isSome = true) →
        r.trace.ccCalls.length = 1) := by
  have F := processAckFrame_ok_facts conn pnSpace frame lossVisitor isPersistentCongestion
    ackReceiveTime nowClock r h
  refine ⟨F.ccCalls_le, fun hcc hor => F.ccCalls_iff.mp ⟨hcc, ?_⟩⟩
  rcases hor with hne | hsome
  · left
    have hinv := accLargestInv_walkResult conn pnSpace frame ackReceiveTime nowClock
    rw [F.ack_eq] at hne ⊢
    exact hinv.mpr hne
  · right
    exact hsome

/-- Witness for C4 at the concrete run of `connW1`: a congestion
controller is attached, packet 3 is acked, and the controller is
notified exactly once. -/
theorem processAckFrame_cc_notified_at_most_once_witness :
    resW1.trace.ccCalls.length ≤ 1 ∧ resW1.trace.ccCalls.length = 1 :=
  ⟨(processAckFrame_cc_notified_at_most_once connW1 PacketNumberSpace.AppData frameW1
      lossVisitorNone pcAlwaysTrue 9 10 resW1 rfl).1,
   (processAckFrame_cc_notified_at_most_once connW1 PacketNumberSpace.AppData frameW1
      lossVisitorNone pcAlwaysTrue 9 10 resW1 rfl).2 rfl (Or.inl (by decide))⟩

/-! ## Claim C5 -/

/-- Counterexample to C5 as stated: with no congestion controller
attached, the Loss Detector produces a loss event, the call completes,
yet the persistent-congestion predicate is never evaluated (and
nothing is stored on the discarded loss event) — the source only
evaluates it inside the congestion-controller branch (lines
201-214). -/
theorem persistentCongestion_skipped_without_cc :
    (processAckFrame connNoCC PacketNumberSpace.AppData emptyFrame lossVisitorConst
        pcAlwaysTrue 5 10).map
        (fun r => (r.trace.lossEventProduced, r.trace.pcEvals)) =
      Except.ok (some ⟨some 1, some 2, false⟩, []) := rfl

/-- Claim C5 (amended): whenever a congestion controller is attached
and the Loss Detector produces a loss event on a completed call, the
persistent-congestion predicate is evaluated once over the inclusive
span `[smallestLostSentTime, largestLostSentTime]` of that loss event
(both bounds present, or the call aborts), and its boolean result is
stored on the loss event handed to the congestion controller. -/
theorem processAckFrame_pc_eval_with_cc (conn : QuicConnectionStateBase)
    (pnSpace : PacketNumberSpace) (frame : ReadAckFrame)
    (lossVisitor : QuicConnectionStateBase → AckEvent → PacketNumberSpace → Option LossEvent)
    (isPersistentCongestion : QuicConnectionStateBase → Nat → Nat → Bool)
    (ackReceiveTime nowClock : Nat) (r : AckProcessResult)
    (h : processAckFrame conn pnSpace frame lossVisitor isPersistentCongestion
      ackReceiveTime nowClock = Except.ok r)
    (hcc : conn.congestionController = true) (le : LossEvent)
    (hle : r.trace.lossEventProduced = some le) :
    ∃ s l, le.smallestLostSentTime = some s ∧ le.largestLostSentTime = some l ∧
      r.trace.pcEvals = [(s, l, isPersistentCongestion r.conn s l)] ∧
      r.trace.ccCalls =
        [(r.ack, some { le with persistentCongestion := isPersistentCongestion r.conn s l })] :=
  (processAckFrame_ok_facts conn pnSpace frame lossVisitor isPersistentCongestion
    ackReceiveTime nowClock r h).pc_eval le hcc hle

/-- Witness for amended C5 at the concrete run of `connCC` with
`lossVisitorConst`. -/
theorem processAckFrame_pc_eval_with_cc_witness :
    ∃ s l, (some 1 : Option Nat) = some s ∧ (some 2 : Option Nat) = some l ∧
      resW2.trace.pcEvals = [(s, l, pcAlwaysTrue resW2.conn s l)] ∧
      resW2.trace.ccCalls =
        [(resW2.ack,
          some { smallestLostSentTime := some 1, largestLostSentTime := some 2
                 persistentCongestion := pcAlwaysTrue resW2.conn s l })] :=
  processAckFrame_pc_eval_with_cc connCC PacketNumberSpace.AppData emptyFrame
    lossVisitorConst pcAlwaysTrue 5 10 resW2 rfl rfl ⟨some 1, some 2, false⟩ rfl

/-! ## Claim C10 -/

/-- Claim C10: a confirmed outgoing frame with no ack blocks leaves
the AckState entirely unchanged — no withdrawal happens and the purge
rule is not applied. -/
theorem commonAckVisitor_empty_frame_no_change (ackState : AckState)
    (frame : WriteAckFrame) (h : frame.ackBlocks = []) :
    commonAckVisitorForAckFrame ackState frame = ackState := by
  simp [commonAckVisitorForAckFrame, h]

/-- Witness for C10 at a concrete AckState. -/
theorem commonAckVisitor_empty_frame_no_change_witness :
    commonAckVisitorForAckFrame ⟨{0, 5}⟩ ⟨[]⟩ = ⟨{0, 5}⟩ :=
  commonAckVisitor_empty_frame_no_change ⟨{0, 5}⟩ ⟨[]⟩ rfl

/-! ## Claim C7 -/

lemma mem_withdrawInterval (s : Finset Nat) (iv : Interval) (n : Nat) :
    n ∈ withdrawInterval s iv ↔ n ∈ s ∧ (n < iv.start ∨ iv.endPt < n) := by
  simp [withdrawInterval, Finset.mem_filter]

lemma mem_foldl_withdrawInterval (l : List Interval) (s : Finset Nat) (n : Nat) :
    n ∈ l.foldl withdrawInterval s ↔ n ∈ s ∧ ∀ iv ∈ l, n < iv.start ∨ iv.endPt < n := by
  induction l generalizing s with
  | nil => simp
  | cons iv t ih =>
    simp only [List.foldl_cons, ih, withdrawInterval, Finset.mem_filter,
      List.forall_mem_cons, and_assoc]

/-- Claim C7: `commonAckVisitorForAckFrame` on a non-empty confirmed
frame removes from the AckState exactly the numbers of the frame's ack
blocks, plus — when the front block's `end` (the largest acked number)
exceeds the purge threshold — the closed range
`[0, largestAcked - kAckPurgingThresh]`; in particular every block's
interval is withdrawn and every tracked number at or below
`largestAcked - kAckPurgingThresh` is absent afterwards (the purge
law). -/
theorem commonAckVisitor_withdraws_and_purges (ackState : AckState)
    (frame : WriteAckFrame) (blk : Interval) (rest : List Interval)
    (h : frame.ackBlocks = blk :: rest) :
    (∀ n, n ∈ (commonAckVisitorForAckFrame ackState frame).acks ↔
        n ∈ ackState.acks ∧ (∀ iv ∈ frame.ackBlocks, n < iv.start ∨ iv.endPt < n) ∧
          (kAckPurgingThresh < blk.endPt → blk.endPt - kAckPurgingThresh < n)) ∧
      (∀ iv ∈ frame.ackBlocks, ∀ n, iv.start ≤ n → n ≤ iv.endPt →
        n ∉ (commonAckVisitorForAckFrame ackState frame).acks) ∧
      (kAckPurgingThresh < blk.endPt →
        ∀ n, n ≤ blk.endPt - kAckPurgingThresh →
          n ∉ (commonAckVisitorForAckFrame ackState frame).acks) := by
  have hmain : ∀ n, n ∈ (commonAckVisitorForAckFrame ackState frame).acks ↔
      n ∈ ackState.acks ∧ (∀ iv ∈ frame.ackBlocks, n < iv.start ∨ iv.endPt < n) ∧
        (kAckPurgingThresh < blk.endPt → blk.endPt - kAckPurgingThresh < n) := by
    intro n
    by_cases hp : kAckPurgingThresh < blk.endPt
    · simp only [commonAckVisitorForAckFrame, h, if_pos hp, mem_withdrawInterval,
        mem_foldl_withdrawInterval, List.mem_reverse]
      constructor
      · rintro ⟨⟨hs, hall⟩, hrange⟩
        exact ⟨hs, hall, fun _ => by omega⟩
      · rintro ⟨hs, hall, hpu⟩
        refine ⟨⟨hs, hall⟩, ?_⟩
        have := hpu hp
        omega
    · simp only [commonAckVisitorForAckFrame, h, if_neg hp, mem_foldl_withdrawInterval,
        List.mem_reverse]
      constructor
      · rintro ⟨hs, hall⟩
        exact ⟨hs, hall, fun hh => absurd hh hp⟩
      · rintro ⟨hs, hall, -⟩
        exact ⟨hs, hall⟩
  refine ⟨hmain, ?_, ?_⟩
  · intro iv hiv n h1 h2 hmem
    rcases (hmain n).mp hmem with ⟨-, hall, -⟩
    rcases hall iv hiv with h3 | h3 <;> omega
  · intro hp n hn hmem
    rcases (hmain n).mp hmem with ⟨-, -, hpu⟩
    have := hpu hp
    omega

/-- Witness for C7 at a concrete AckState tracking `0..29` and a
confirmed frame with blocks `[25,28]` and `[15,18]`. -/
theorem commonAckVisitor_withdraws_and_purges_witness :
    (∀ n, n ∈ (commonAckVisitorForAckFrame ⟨Finset.range 30⟩
          ⟨[⟨25, 28⟩, ⟨15, 18⟩]⟩).acks ↔
        n ∈ (⟨Finset.range 30⟩ : AckState).acks ∧
          (∀ iv ∈ ([⟨25, 28⟩, ⟨15, 18⟩] : List Interval), n < iv.start ∨ iv.endPt < n) ∧
          (kAckPurgingThresh < (28 : Nat) → 28 - kAckPurgingThresh < n)) ∧
      (∀ iv ∈ ([⟨25, 28⟩, ⟨15, 18⟩] : List Interval), ∀ n, iv.start ≤ n → n ≤ iv.endPt →
        n ∉ (commonAckVisitorForAckFrame ⟨Finset.range 30⟩ ⟨[⟨25, 28⟩, ⟨15, 18⟩]⟩).acks) ∧
      (kAckPurgingThresh < (28 : Nat) →
        ∀ n, n ≤ 28 - kAckPurgingThresh →
          n ∉ (commonAckVisitorForAckFrame ⟨Finset.range 30⟩ ⟨[⟨25, 28⟩, ⟨15, 18⟩]⟩).acks) :=
  commonAckVisitor_withdraws_and_purges ⟨Finset.range 30⟩ ⟨[⟨25, 28⟩, ⟨15, 18⟩]⟩
    ⟨25, 28⟩ [⟨15, 18⟩] rfl

/-! ## Claim C8 -/

/-- Claim C8 fails on the code: in `connBug` the AppData ack frame
`frameBug` references only packet numbers (10 through 20) that are
absent from the ledger, yet processing it acks and removes the
outstanding AppData packet 100: the binary search for block `[10,20]`
stops at Handshake packet 2 (number 2 ≤ 20), the inner loop skips it
as belonging to another space, and then — never re-checking the
block's `endPacket` bound — finds AppData packet 100 with
`100 ≥ startPacket` and treats it as acked (lines 84-171 of the
source), invoking the ack visitor on it, counting its 11 bytes and
erasing it from the ledger.  The first conjunct certifies the claim's
premise (no ledger packet number is covered by any block); the second
evaluates the call. -/
theorem processAckFrame_acks_uncovered_packet :
    (∀ p ∈ connBug.outstandings.packets,
        coveredByBlocks frameBug.ackBlocks p.packetNum = false) ∧
      (processAckFrame connBug PacketNumberSpace.AppData frameBug lossVisitorNone
          pcAlwaysTrue 9 10).map
          (fun r => (r.conn.outstandings.packets.map (fun p => p.packetNum),
            r.trace.ackVisits, r.ack.ackedBytes)) =
        Except.ok ([2, 200], [(100, 0)], 11) :=
  ⟨by decide, rfl⟩

/-! ## Claim C3 -/

/-- Counterexample to C3 as stated: acking packet 5 (sent at time 3)
with `ackReceiveTime = 5` and ambient clock 10, the estimator is fed
the sample `5 - 3 = 2` — the source (lines 126-129) uses
`ackReceiveTime` itself whenever it exceeds the send time — whereas
the claim's formula `max(ackReceiveTime, nowClock) - sendTime` gives
`10 - 3 = 7 ≠ 2`. -/
theorem rtt_sample_is_not_max_with_now :
    (processAckFrame connC3 PacketNumberSpace.AppData frameC3 lossVisitorNone
        pcAlwaysTrue 5 10).map (fun r => r.trace.rttUpdates) =
      Except.ok [((2 : Int), (2 : Nat))] ∧
      ((2 : Int) ≠ (max 5 10 : Int) - 3) :=
  ⟨rfl, by decide⟩

lemma processEntry_rttUpdates (ctx : AckCtx) (acc : AckAccum) (p : OutstandingPacket) :
    (processEntry ctx acc p).rttUpdates = acc.rttUpdates ++
      (if p.packetNum = ctx.frame.largestAcked
       then [(rttSampleOf ctx p, ctx.frame.ackDelay)] else []) := by
  simp only [processEntry]
  split <;> simp

lemma innerWalk_rem_sublist (ctx : AckCtx) (b : AckBlock) :
    ∀ (l : List OutstandingPacket) (acc : AckAccum),
      List.Sublist (innerWalk ctx b l acc).2.1 l := by
  intro l
  induction l with
  | nil => intro acc; simp [innerWalk]
  | cons p rest ih =>
    intro acc
    simp only [innerWalk]
    split
    · exact (ih acc).cons p
    · split
      · exact List.Sublist.refl _
      · exact (ih (processEntry ctx acc p)).cons p

lemma innerWalk_rttUpdates_mem (ctx : AckCtx) (b : AckBlock) :
    ∀ (l : List OutstandingPacket) (acc : AckAccum) (u : Int × Nat),
      u ∈ (innerWalk ctx b l acc).2.2.rttUpdates →
      u ∈ acc.rttUpdates ∨ ∃ p, p ∈ l ∧ p.pnSpace = ctx.pnSpace ∧
        p.packetNum = ctx.frame.largestAcked ∧
        u = (rttSampleOf ctx p, ctx.frame.ackDelay) := by
  intro l
  induction l with
  | nil => intro acc u hu; left; simpa [innerWalk] using hu
  | cons p rest ih =>
    intro acc u hu
    simp only [innerWalk] at hu
    split at hu
    · rcases ih acc u hu with h1 | ⟨q, hq, h2⟩
      · exact Or.inl h1
      · exact Or.inr ⟨q, List.mem_cons_of_mem p hq, h2⟩
    · split at hu
      · exact Or.inl hu
      · rename_i hne hge
        rcases ih (processEntry ctx acc p) u hu with h1 | ⟨q, hq, h2⟩
        · rw [processEntry_rttUpdates] at h1
          rcases List.mem_append.mp h1 with h2 | h2
          · exact Or.inl h2
          · split at h2
            · rename_i hpn
              rcases List.mem_singleton.mp h2 with rfl
              exact Or.inr ⟨p, List.mem_cons_self p rest, not_not.mp hne, hpn, rfl⟩
            · exact absurd h2 (List.not_mem_nil u)
        · exact Or.inr ⟨q, List.mem_cons_of_mem p hq, h2⟩

lemma processBlocks_rttUpdates_mem (ctx : AckCtx) :
    ∀ (blocks : List AckBlock) (rev : List OutstandingPacket) (acc : AckAccum)
      (u : Int × Nat), u ∈ (processBlocks ctx blocks rev acc).2.rttUpdates →
      u ∈ acc.rttUpdates ∨ ∃ p, p ∈ rev ∧ p.pnSpace = ctx.pnSpace ∧
        p.packetNum = ctx.frame.largestAcked ∧
        u = (rttSampleOf ctx p, ctx.frame.ackDelay) := by
  intro blocks
  induction blocks with
  | nil => intro rev acc u hu; left; simpa [processBlocks] using hu
  | cons b bs ih =>
    intro rev acc u hu
    simp only [processBlocks] at hu
    split at hu
    · exact Or.inl hu
    · split at hu
      · exact Or.inl hu
      · rename_i q qs hrev r rs hrest
        have hsub : List.Sublist ((q :: qs).dropWhile
            (fun p => decide (b.endPacket < p.packetNum))) (q :: qs) :=
          List.dropWhile_sublist _
        rcases ih _ _ u hu with h1 | ⟨p, hp, h2⟩
        · rcases innerWalk_rttUpdates_mem ctx b _ acc u h1 with h2 | ⟨p, hp, h3⟩
          · exact Or.inl h2
          · exact Or.inr ⟨p, hsub.subset hp, h3⟩
        · refine Or.inr ⟨p, ?_, h2⟩
          have h3 := (innerWalk_rem_sublist ctx b _ acc).subset hp
          exact hsub.subset h3

/-- Claim C3 (amended): every sample fed to the RTT estimator during a
completed `processAckFrame` call carries the frame's ack delay and
comes from a matched packet of the target space whose packet number
equals the frame's `largestAcked`; the sample is
`(ackReceiveTime if it exceeds the packet's send time, else the
ambient clock) - sendTime` (`rttSampleOf`), not
`max(ackReceiveTime, nowClock) - sendTime`. -/
theorem processAckFrame_rtt_only_largestAcked (conn : QuicConnectionStateBase)
    (pnSpace : PacketNumberSpace) (frame : ReadAckFrame)
    (lossVisitor : QuicConnectionStateBase → AckEvent → PacketNumberSpace → Option LossEvent)
    (isPersistentCongestion : QuicConnectionStateBase → Nat → Nat → Bool)
    (ackReceiveTime nowClock : Nat) (r : AckProcessResult)
    (h : processAckFrame conn pnSpace frame lossVisitor isPersistentCongestion
      ackReceiveTime nowClock = Except.ok r) :
    ∀ u ∈ r.trace.rttUpdates, u.2 = frame.ackDelay ∧
      ∃ p, p ∈ conn.outstandings.packets ∧ p.pnSpace = pnSpace ∧
        p.packetNum = frame.largestAcked ∧
        u.1 = rttSampleOf ⟨pnSpace, frame, ackReceiveTime, nowClock⟩ p := by
  intro u hu
  have F := processAckFrame_ok_facts conn pnSpace frame lossVisitor isPersistentCongestion
    ackReceiveTime nowClock r h
  rw [F.rttUpdates_eq] at hu
  rcases processBlocks_rttUpdates_mem ⟨pnSpace, frame, ackReceiveTime, nowClock⟩
      frame.ackBlocks conn.outstandings.packets.reverse (initAccum conn ackReceiveTime)
      u hu with h1 | ⟨p, hp, hsp, hpn, hueq⟩
  · simp [initAccum] at h1
  · subst hueq
    exact ⟨rfl, p, List.mem_reverse.mp hp, hsp, hpn, rfl⟩

/-- Witness for amended C3: the single RTT feed of the `connW1` run. -/
theorem processAckFrame_rtt_only_largestAcked_witness :
    ((5 : Int), (1 : Nat)).2 = frameW1.ackDelay ∧
      ∃ p, p ∈ connW1.outstandings.packets ∧ p.pnSpace = PacketNumberSpace.AppData ∧
        p.packetNum = frameW1.largestAcked ∧
        ((5 : Int), (1 : Nat)).1 =
          rttSampleOf ⟨PacketNumberSpace.AppData, frameW1, 9, 10⟩ p :=
  processAckFrame_rtt_only_largestAcked connW1 PacketNumberSpace.AppData frameW1
    lossVisitorNone pcAlwaysTrue 9 10 resW1 rfl ((5 : Int), (1 : Nat)) (by decide)

/-! ## Claim C6 -/

lemma optMin_append_one (l : List Int) (x : Int) :
    optMin (l ++ [x]) =
      some (match optMin l with | none => x | some y => min y x) := by
  simp only [optMin, List.foldl_append, List.foldl_cons, List.foldl_nil]

lemma accInv_preserved_innerWalk (ctx : AckCtx) (b : AckBlock) (P : AckAccum → Prop)
    (hstep : ∀ acc p, P acc → P (processEntry ctx acc p)) :
    ∀ (l : List OutstandingPacket) (acc : AckAccum), P acc →
      P (innerWalk ctx b l acc).2.2 := by
  intro l
  induction l with
  | nil => intro acc h; simpa [innerWalk] using h
  | cons p rest ih =>
    intro acc h
    simp only [innerWalk]
    split
    · exact ih acc h
    · split
      · exact h
      · exact ih (processEntry ctx acc p) (hstep acc p h)

lemma accInv_preserved_processBlocks (ctx : AckCtx) (P : AckAccum → Prop)
    (hstep : ∀ acc p, P acc → P (processEntry ctx acc p)) :
    ∀ (blocks : List AckBlock) (rev : List OutstandingPacket) (acc : AckAccum),
      P acc → P (processBlocks ctx blocks rev acc).2 := by
  intro blocks
  induction blocks with
  | nil => intro rev acc h; simpa [processBlocks] using h
  | cons b bs ih =>
    intro rev acc h
    simp only [processBlocks]
    split
    · exact h
    · split
      · exact h
      · exact ih _ _ (accInv_preserved_innerWalk ctx b P hstep _ acc h)

lemma mrttInv_processEntry (ctx : AckCtx) (acc : AckAccum) (p : OutstandingPacket)
    (h : mrttInv ctx.ackReceiveTime acc) :
    mrttInv ctx.ackReceiveTime (processEntry ctx acc p) := by
  unfold mrttInv at h ⊢
  by_cases ht : ctx.ackReceiveTime > p.time
  · have hs : rttSampleOf ctx p = (ctx.ackReceiveTime : Int) - (p.time : Int) := by
      simp [rttSampleOf, ht]
    simp only [processEntry, if_pos ht]
    rw [List.filter_append, List.map_append]
    have hrec : List.filter (fun a => decide (a.sentTime < ctx.ackReceiveTime))
        [({ sentTime := p.time, encodedSize := p.encodedSize
            lastAckedPacketInfo := p.lastAckedPacketInfo
            totalBytesSentThen := p.totalBytesSent
            isAppLimited := p.isAppLimited } : AckPacket)] =
        [{ sentTime := p.time, encodedSize := p.encodedSize
           lastAckedPacketInfo := p.lastAckedPacketInfo
           totalBytesSentThen := p.totalBytesSent
           isAppLimited := p.isAppLimited }] := by
      simp [ht]
    rw [hrec]
    simp only [List.map_cons, List.map_nil]
    rw [optMin_append_one, ← h, hs]
    cases acc.ack.mrttSample with
    | none => simp
    | some y => simp
  · simp only [processEntry, if_neg ht]
    rw [List.filter_append, List.map_append]
    have hrec : List.filter (fun a => decide (a.sentTime < ctx.ackReceiveTime))
        [({ sentTime := p.time, encodedSize := p.encodedSize
            lastAckedPacketInfo := p.lastAckedPacketInfo
            totalBytesSentThen := p.totalBytesSent
            isAppLimited := p.isAppLimited } : AckPacket)] = [] := by
      simp
      omega
    rw [hrec]
    simpa using h

/-- Claim C6: on every completed `processAckFrame` call, the ack
event's minimum-RTT value equals the minimum, over exactly the matched
packets whose send time precedes `ackReceiveTime`, of the per-entry
samples `ackReceiveTime - sentTime`, and it is absent when no matched
packet satisfies that condition (`optMin [] = none`). -/
theorem processAckFrame_mrtt_sample (conn : QuicConnectionStateBase)
    (pnSpace : PacketNumberSpace) (frame : ReadAckFrame)
    (lossVisitor : QuicConnectionStateBase → AckEvent → PacketNumberSpace → Option LossEvent)
    (isPersistentCongestion : QuicConnectionStateBase → Nat → Nat → Bool)
    (ackReceiveTime nowClock : Nat) (r : AckProcessResult)
    (h : processAckFrame conn pnSpace frame lossVisitor isPersistentCongestion
      ackReceiveTime nowClock = Except.ok r) :
    r.ack.mrttSample = optMin
        ((r.ack.ackedPackets.filter (fun a => decide (a.sentTime < ackReceiveTime))).map
          (fun a => (ackReceiveTime : Int) - (a.sentTime : Int))) ∧
      (r.ack.ackedPackets.filter (fun a => decide (a.sentTime < ackReceiveTime)) = [] →
        r.ack.mrttSample = none) := by
  have F := processAckFrame_ok_facts conn pnSpace frame lossVisitor isPersistentCongestion
    ackReceiveTime nowClock r h
  have hinv : mrttInv ackReceiveTime (walkResult conn pnSpace frame ackReceiveTime nowClock).2 :=
    accInv_preserved_processBlocks ⟨pnSpace, frame, ackReceiveTime, nowClock⟩
      (mrttInv ackReceiveTime)
      (fun acc p hp => mrttInv_processEntry ⟨pnSpace, frame, ackReceiveTime, nowClock⟩ acc p hp)
      frame.ackBlocks conn.outstandings.packets.reverse (initAccum conn ackReceiveTime)
      (by simp [mrttInv, initAccum, optMin])
  have hmain : r.ack.mrttSample = optMin
      ((r.ack.ackedPackets.filter (fun a => decide (a.sentTime < ackReceiveTime))).map
        (fun a => (ackReceiveTime : Int) - (a.sentTime : Int))) := by
    rw [F.ack_eq]
    exact hinv
  refine ⟨hmain, fun hnil => ?_⟩
  rw [hmain, hnil]
  simp [optMin]

/-- Witness for C6 at the concrete run of `connW1`: the single matched
packet was sent at time 4 < 9, so the minimum RTT is `9 - 4 = 5`. -/
theorem processAckFrame_mrtt_sample_witness :
    resW1.ack.mrttSample = optMin
        ((resW1.ack.ackedPackets.filter (fun a => decide (a.sentTime < 9))).map
          (fun a => ((9 : Nat) : Int) - (a.sentTime : Int))) ∧
      (resW1.ack.ackedPackets.filter (fun a => decide (a.sentTime < 9)) = [] →
        resW1.ack.mrttSample = none) :=
  processAckFrame_mrtt_sample connW1 PacketNumberSpace.AppData frameW1
    lossVisitorNone pcAlwaysTrue 9 10 resW1 rfl

/-! ## Claim C2: projections of the per-run fold -/

lemma processEntry_ackVisits (ctx : AckCtx) (acc : AckAccum) (p : OutstandingPacket) :
    (processEntry ctx acc p).ackVisits = acc.ackVisits ++ visitsOf p acc.packetEvents := by
  simp only [processEntry, visitsOf]
  cases hae : p.associatedEvent with
  | none => simp
  | some e =>
    cases h2 : decide (e ∈ acc.packetEvents) <;> simp [h2]

lemma processEntry_packetEvents (ctx : AckCtx) (acc : AckAccum) (p : OutstandingPacket) :
    (processEntry ctx acc p).packetEvents = eventsStepOf p acc.packetEvents := by
  simp only [processEntry, eventsStepOf]
  cases hae : p.associatedEvent with
  | none => simp
  | some e =>
    by_cases he : e ∈ acc.packetEvents <;> simp [he]

lemma foldl_processEntry_ackVisits (ctx : AckCtx) :
    ∀ (l : List OutstandingPacket) (acc : AckAccum),
      (l.foldl (processEntry ctx) acc).ackVisits =
        acc.ackVisits ++ visitsSpec l acc.packetEvents := by
  intro l
  induction l with
  | nil => intro acc; simp [visitsSpec]
  | cons p rest ih =>
    intro acc
    simp only [List.foldl_cons, visitsSpec]
    rw [ih, processEntry_ackVisits, processEntry_packetEvents, List.append_assoc]

lemma processEntry_ackedBytes (ctx : AckCtx) (acc : AckAccum) (p : OutstandingPacket) :
    (processEntry ctx acc p).ack.ackedBytes = acc.ack.ackedBytes + p.encodedSize := by
  simp [processEntry]

lemma foldl_processEntry_ackedBytes (ctx : AckCtx) :
    ∀ (l : List OutstandingPacket) (acc : AckAccum),
      (l.foldl (processEntry ctx) acc).ack.ackedBytes =
        acc.ack.ackedBytes + (l.map (fun p => p.encodedSize)).sum := by
  intro l
  induction l with
  | nil => intro acc; simp
  | cons p rest ih =>
    intro acc
    simp only [List.foldl_cons, List.map_cons, List.sum_cons]
    rw [ih, processEntry_ackedBytes]
    omega

lemma processEntry_cloned (ctx : AckCtx) (acc : AckAccum) (p : OutstandingPacket) :
    (processEntry ctx acc p).clonedPacketsAcked =
      acc.clonedPacketsAcked + (if p.associatedEvent.isSome then 1 else 0) := by
  simp [processEntry]

lemma foldl_processEntry_cloned (ctx : AckCtx) :
    ∀ (l : List OutstandingPacket) (acc : AckAccum),
      (l.foldl (processEntry ctx) acc).clonedPacketsAcked =
        acc.clonedPacketsAcked +
          (l.filter (fun p => p.associatedEvent.isSome)).length := by
  intro l
  induction l with
  | nil => intro acc; simp
  | cons p rest ih =>
    intro acc
    simp only [List.foldl_cons, List.filter_cons]
    rw [ih, processEntry_cloned]
    split
    · simp
      omega
    · simp

/-! ## Claim C2: the sorted single-space characterization of the walk -/

lemma innerWalk_all_same_space (ctx : AckCtx) (b : AckBlock) :
    ∀ (l : List OutstandingPacket) (acc : AckAccum),
      (∀ p ∈ l, p.pnSpace = ctx.pnSpace) →
      innerWalk ctx b l acc =
        ([], l.dropWhile (fun p => decide (b.startPacket ≤ p.packetNum)),
         (l.takeWhile (fun p => decide (b.startPacket ≤ p.packetNum))).foldl
           (processEntry ctx) acc) := by
  intro l
  induction l with
  | nil => intro acc _; simp [innerWalk]
  | cons p rest ih =>
    intro acc h
    have hsp : p.pnSpace = ctx.pnSpace := h p (List.mem_cons_self p rest)
    simp only [innerWalk]
    rw [if_neg (by simp [hsp])]
    by_cases hlt : p.packetNum < b.startPacket
    · rw [if_pos hlt]
      have hpred : decide (b.startPacket ≤ p.packetNum) = false := by
        simp
        omega
      simp [List.takeWhile_cons, List.dropWhile_cons, hpred]
    · rw [if_neg hlt]
      have hpred : decide (b.startPacket ≤ p.packetNum) = true := by
        simp
        omega
      rw [ih (processEntry ctx acc p) (fun q hq => h q (List.mem_cons_of_mem p hq))]
      simp [List.takeWhile_cons, List.dropWhile_cons, hpred]

lemma takeWhile_ge_eq_filter (s : Nat) :
    ∀ l : List OutstandingPacket,
      l.Pairwise (fun a b => b.packetNum < a.packetNum) →
      l.takeWhile (fun p => decide (s ≤ p.packetNum)) =
        l.filter (fun p => decide (s ≤ p.packetNum)) := by
  intro l
  induction l with
  | nil => simp
  | cons p rest ih =>
    intro hp
    rcases List.pairwise_cons.mp hp with ⟨hall, hrest⟩
    by_cases hs : s ≤ p.packetNum
    · simp only [List.takeWhile_cons, List.filter_cons]
      rw [if_pos (by simpa using hs), if_pos (by simpa using hs), ih hrest]
    · simp only [List.takeWhile_cons, List.filter_cons]
      rw [if_neg (by simpa using hs), if_neg (by simpa using hs)]
      have hnil : rest.filter (fun p => decide (s ≤ p.packetNum)) = [] := by
        rw [List.filter_eq_nil_iff]
        intro q hq
        have := hall q hq
        simp
        omega
      exact hnil.symm

lemma dropWhile_ge_eq_filter (s : Nat) :
    ∀ l : List OutstandingPacket,
      l.Pairwise (fun a b => b.packetNum < a.packetNum) →
      l.dropWhile (fun p => decide (s ≤ p.packetNum)) =
        l.filter (fun p => decide (p.packetNum < s)) := by
  intro l
  induction l with
  | nil => simp
  | cons p rest ih =>
    intro hp
    rcases List.pairwise_cons.mp hp with ⟨hall, hrest⟩
    by_cases hs : s ≤ p.packetNum
    · simp only [List.dropWhile_cons, List.filter_cons]
      rw [if_pos (by simpa using hs), if_neg (by simp; omega), ih hrest]
    · simp only [List.dropWhile_cons, List.filter_cons]
      rw [if_neg (by simpa using hs), if_pos (by simp; omega)]
      have hself : rest.filter (fun p => decide (p.packetNum < s)) = rest := by
        rw [List.filter_eq_self]
        intro q hq
        have := hall q hq
        simp
        omega
      rw [hself]

lemma dropWhile_head_false {α : Type} (p : α → Bool) :
    ∀ (l : List α) (x : α) (xs : List α), l.dropWhile p = x :: xs → p x = false := by
  intro l
  induction l with
  | nil => intro x xs h; simp at h
  | cons a t ih =>
    intro x xs h
    rw [List.dropWhile_cons] at h
    split at h
    · exact ih x xs h
    · rename_i ha
      obtain ⟨rfl, -⟩ := List.cons.inj h
      simpa using ha

/-- On a ledger whose packets all belong to the target space, sorted
strictly descending in the walk direction, against ack blocks sorted
strictly descending with real gaps, the merge loop keeps exactly the
packets not covered by any ack block and folds `processEntry` over the
covered packets in walk (descending) order. -/
lemma processBlocks_char (ctx : AckCtx) :
    ∀ (blocks : List AckBlock) (rev : List OutstandingPacket) (acc : AckAccum),
      (∀ p ∈ rev, p.pnSpace = ctx.pnSpace) →
      rev.Pairwise (fun a b => b.packetNum < a.packetNum) →
      blocks.Pairwise (fun b1 b2 => b2.endPacket < b1.startPacket) →
      (∀ b ∈ blocks, b.startPacket ≤ b.endPacket) →
      processBlocks ctx blocks rev acc =
        (rev.filter (fun p => !coveredByBlocks blocks p.packetNum),
         (rev.filter (fun p => coveredByBlocks blocks p.packetNum)).foldl
           (processEntry ctx) acc) := by
  intro blocks
  induction blocks with
  | nil =>
    intro rev acc _ _ _ _
    simp [processBlocks, coveredByBlocks]
  | cons b bs ih =>
    intro rev acc hspace hsort hpair hwf
    rcases List.pairwise_cons.mp hpair with ⟨hbs, hpair2⟩
    have hwfb := hwf b (List.mem_cons_self b bs)
    simp only [processBlocks]
    cases rev with
    | nil => simp
    | cons q qs =>
      cases hrest : (q :: qs).dropWhile (fun p => decide (b.endPacket < p.packetNum)) with
      | nil =>
        have hall : ∀ p ∈ q :: qs, b.endPacket < p.packetNum := by
          intro p hp
          have := List.dropWhile_eq_nil_iff.mp hrest p hp
          simpa using this
        have hcov : ∀ p ∈ q :: qs, coveredByBlocks (b :: bs) p.packetNum = false := by
          intro p hp
          have h1 := hall p hp
          simp only [coveredByBlocks, List.any_cons, List.any_eq_true, Bool.or_eq_false_iff]
          constructor
          · simp
            omega
          · simp only [List.any_eq_false]
            intro b2 hb2
            have := hbs b2 hb2
            simp
            omega
        dsimp only
        have h1 : (q :: qs).filter (fun p => !coveredByBlocks (b :: bs) p.packetNum) =
            q :: qs := by
          rw [List.filter_eq_self]
          intro p hp
          simp [hcov p hp]
        have h2 : (q :: qs).filter (fun p => coveredByBlocks (b :: bs) p.packetNum) = [] := by
          rw [List.filter_eq_nil_iff]
          intro p hp
          simp [hcov p hp]
        rw [h1, h2]
        simp
      | cons r rs =>
        dsimp only
        have hsubrest : List.Sublist (r :: rs) (q :: qs) := by
          rw [← hrest]
          exact List.dropWhile_sublist _
        have hspace2 : ∀ p ∈ r :: rs, p.pnSpace = ctx.pnSpace :=
          fun p hp => hspace p (hsubrest.subset hp)
        have hsort2 : (r :: rs).Pairwise (fun a b => b.packetNum < a.packetNum) :=
          hsort.sublist hsubrest
        rw [innerWalk_all_same_space ctx b (r :: rs) acc hspace2]
        -- bounds on the cut
        have hrle : r.packetNum ≤ b.endPacket := by
          have := dropWhile_head_false _ _ _ _ hrest
          simpa using this
        have hallrest : ∀ p ∈ r :: rs, p.packetNum ≤ b.endPacket := by
          intro p hp
          rcases List.mem_cons.mp hp with rfl | hp2
          · exact hrle
          · rcases List.pairwise_cons.mp hsort2 with ⟨hall2, -⟩
            have := hall2 p hp2
            omega
        have hskip : ∀ p ∈ (q :: qs).takeWhile
            (fun p => decide (b.endPacket < p.packetNum)), b.endPacket < p.packetNum := by
          intro p hp
          have := List.mem_takeWhile_imp hp
          simpa using this
        -- rewrite the take/drop of the inner walk as filters
        rw [takeWhile_ge_eq_filter b.startPacket (r :: rs) hsort2,
            dropWhile_ge_eq_filter b.startPacket (r :: rs) hsort2]
        -- the recursive call via the induction hypothesis
        have hremsub : List.Sublist ((r :: rs).filter
            (fun p => decide (p.packetNum < b.startPacket))) (r :: rs) :=
          List.filter_sublist _
        rw [ih ((r :: rs).filter (fun p => decide (p.packetNum < b.startPacket)))
            (((r :: rs).filter (fun p => decide (b.startPacket ≤ p.packetNum))).foldl
              (processEntry ctx) acc)
            (fun p hp => hspace2 p (hremsub.subset hp))
            (hsort2.sublist hremsub) hpair2
            (fun b2 hb2 => hwf b2 (List.mem_cons_of_mem b hb2))]
        -- assemble both components
        have hrevsplit : q :: qs =
            ((q :: qs).takeWhile (fun p => decide (b.endPacket < p.packetNum))) ++ (r :: rs) := by
          rw [← hrest]
          exact (List.takeWhile_append_dropWhile _ _).symm
        have hcovskip : ∀ p ∈ (q :: qs).takeWhile
            (fun p => decide (b.endPacket < p.packetNum)),
            coveredByBlocks (b :: bs) p.packetNum = false := by
          intro p hp
          have h1 := hskip p hp
          simp only [coveredByBlocks, List.any_cons, Bool.or_eq_false_iff]
          constructor
          · simp
            omega
          · simp only [List.any_eq_false]
            intro b2 hb2
            have := hbs b2 hb2
            simp
            omega
        have hcovproc : ∀ p ∈ r :: rs, decide (b.startPacket ≤ p.packetNum) = true →
            coveredByBlocks (b :: bs) p.packetNum = true := by
          intro p hp hge
          have h1 := hallrest p hp
          simp only [coveredByBlocks, List.any_cons, Bool.or_eq_true]
          left
          simp at hge ⊢
          omega
        have hcovrem : ∀ p ∈ r :: rs, decide (p.packetNum < b.startPacket) = true →
            coveredByBlocks (b :: bs) p.packetNum = coveredByBlocks bs p.packetNum := by
          intro p hp hlt
          simp only [coveredByBlocks, List.any_cons]
          have : (decide (b.startPacket ≤ p.packetNum) && decide (p.packetNum ≤ b.endPacket)) =
              false := by
            simp at hlt ⊢
            omega
          rw [this]
          simp
        dsimp only
        rw [Prod.mk.injEq]
        constructor
        · -- surviving ledger component
          conv_rhs => rw [hrevsplit]
          rw [List.filter_append]
          have h1 : ((q :: qs).takeWhile (fun p => decide (b.endPacket < p.packetNum))).filter
              (fun p => !coveredByBlocks (b :: bs) p.packetNum) =
              (q :: qs).takeWhile (fun p => decide (b.endPacket < p.packetNum)) := by
            rw [List.filter_eq_self]
            intro p hp
            simp [hcovskip p hp]
          rw [h1]
          -- split (r :: rs) into processed ++ remainder
          have h2 : (r :: rs).filter (fun p => !coveredByBlocks (b :: bs) p.packetNum) =
              ((r :: rs).filter (fun p => decide (p.packetNum < b.startPacket))).filter
                (fun p => !coveredByBlocks bs p.packetNum) := by
            rw [List.filter_filter]
            apply List.filter_congr
            intro p hp
            by_cases hlt : p.packetNum < b.startPacket
            · rw [hcovrem p hp (by simpa using hlt)]
              simp [hlt]
            · have hge : decide (b.startPacket ≤ p.packetNum) = true := by
                simp
                omega
              rw [hcovproc p hp hge]
              simp
              omega
          rw [h2]
          simp
        · -- accumulator component
          conv_rhs => rw [hrevsplit]
          rw [List.filter_append]
          have h1 : ((q :: qs).takeWhile (fun p => decide (b.endPacket < p.packetNum))).filter
              (fun p => coveredByBlocks (b :: bs) p.packetNum) = [] := by
            rw [List.filter_eq_nil_iff]
            intro p hp
            simp [hcovskip p hp]
          rw [h1, List.nil_append]
          have h2 : (r :: rs).filter (fun p => coveredByBlocks (b :: bs) p.packetNum) =
              ((r :: rs).filter (fun p => decide (b.startPacket ≤ p.packetNum))) ++
                ((r :: rs).filter (fun p => decide (p.packetNum < b.startPacket))).filter
                  (fun p => coveredByBlocks bs p.packetNum) := by
            have hsplit2 : r :: rs =
                ((r :: rs).takeWhile (fun p => decide (b.startPacket ≤ p.packetNum))) ++
                  ((r :: rs).dropWhile (fun p => decide (b.startPacket ≤ p.packetNum))) :=
              (List.takeWhile_append_dropWhile _ _).symm
            conv_lhs => rw [hsplit2]
            rw [List.filter_append,
                takeWhile_ge_eq_filter b.startPacket (r :: rs) hsort2,
                dropWhile_ge_eq_filter b.startPacket (r :: rs) hsort2]
            congr 1
            · rw [List.filter_filter, List.filter_congr]
              intro p hp
              by_cases hge : b.startPacket ≤ p.packetNum
              · rw [hcovproc p hp (by simpa using hge)]
                simp [hge]
              · simp
                omega
            · rw [List.filter_filter, List.filter_filter]
              apply List.filter_congr
              intro p hp
              by_cases hlt : p.packetNum < b.startPacket
              · rw [hcovrem p hp (by simpa using hlt)]
              · have hd : decide (p.packetNum < b.startPacket) = false := by
                  simp
                  omega
                rw [hd]
                simp
          rw [h2, List.foldl_append]

/-! ## Claim C2: deduplication along the pending packet-events set -/

lemma eventsStepOf_subset (p : OutstandingPacket) (evs : Finset Nat) :
    ∀ e2 ∈ eventsStepOf p evs, e2 ∈ evs := by
  intro e2 h
  rcases hae : p.associatedEvent with _ | e3
  · simpa [eventsStepOf, hae] using h
  · simp only [eventsStepOf, hae] at h
    split at h
    · exact Finset.mem_of_mem_erase h
    · exact h

lemma mem_eventsStepOf_of_ne (p : OutstandingPacket) (evs : Finset Nat) (e : Nat)
    (he : e ∈ evs) (hne : p.associatedEvent ≠ some e) : e ∈ eventsStepOf p evs := by
  rcases hae : p.associatedEvent with _ | e3
  · simpa [eventsStepOf, hae] using he
  · have hne2 : e ≠ e3 := fun hc => hne (by rw [hae, hc])
    simp only [eventsStepOf, hae]
    split
    · exact Finset.mem_erase.mpr ⟨hne2, he⟩
    · exact he

lemma visitsOf_fst (p : OutstandingPacket) (evs : Finset Nat) :
    ∀ v ∈ visitsOf p evs, v.1 = p.packetNum := by
  intro v hv
  rcases hae : p.associatedEvent with _ | e3
  · simp only [visitsOf, hae] at hv
    obtain ⟨f, -, rfl⟩ := List.mem_map.mp hv
    rfl
  · simp only [visitsOf, hae] at hv
    split at hv
    · obtain ⟨f, -, rfl⟩ := List.mem_map.mp hv
      rfl
    · simp at hv

lemma visitsSpec_filter_pair_none (e pnA pnB : Nat) :
    ∀ (l : List OutstandingPacket) (evs : Finset Nat), e ∉ evs →
      (∀ x ∈ l, (x.packetNum = pnA ∨ x.packetNum = pnB) → x.associatedEvent = some e) →
      (visitsSpec l evs).filter (pairVisit pnA pnB) = [] := by
  intro l
  induction l with
  | nil => intro evs _ _; simp [visitsSpec]
  | cons p rest ih =>
    intro evs he hx
    simp only [visitsSpec, List.filter_append]
    have hrest : (visitsSpec rest (eventsStepOf p evs)).filter (pairVisit pnA pnB) = [] := by
      apply ih
      · exact fun hmem => he (eventsStepOf_subset p evs e hmem)
      · exact fun x hx2 h2 => hx x (List.mem_cons_of_mem p hx2) h2
    rw [hrest, List.append_nil]
    by_cases hpn : p.packetNum = pnA ∨ p.packetNum = pnB
    · have hae := hx p (List.mem_cons_self p rest) hpn
      simp [visitsOf, hae, he]
    · rw [List.filter_eq_nil_iff]
      intro v hv
      have h1 := visitsOf_fst p evs v hv
      simp only [pairVisit, h1, Bool.or_eq_true, decide_eq_true_eq]
      exact hpn

lemma visitsSpec_filter_pair (e pnA pnB : Nat) :
    ∀ (l : List OutstandingPacket) (evs : Finset Nat), e ∈ evs →
      (∀ x ∈ l, (x.packetNum = pnA ∨ x.packetNum = pnB) → x.associatedEvent = some e) →
      (∀ x ∈ l, x.associatedEvent = some e → (x.packetNum = pnA ∨ x.packetNum = pnB)) →
      (visitsSpec l evs).filter (pairVisit pnA pnB) =
        (match l.find? (pairPacket pnA pnB) with
         | some a => a.frames.map (fun f => (a.packetNum, f))
         | none => []) := by
  intro l
  induction l with
  | nil => intro evs _ _ _; simp [visitsSpec]
  | cons p rest ih =>
    intro evs he hx1 hx2
    by_cases hpn : pairPacket pnA pnB p = true
    · have hpn2 : p.packetNum = pnA ∨ p.packetNum = pnB := by
        simpa [pairPacket] using hpn
      have hae := hx1 p (List.mem_cons_self p rest) hpn2
      have hvo : visitsOf p evs = p.frames.map (fun f => (p.packetNum, f)) := by
        simp [visitsOf, hae, he]
      have hkeep : (p.frames.map (fun f => (p.packetNum, f))).filter (pairVisit pnA pnB) =
          p.frames.map (fun f => (p.packetNum, f)) := by
        rw [List.filter_eq_self]
        intro v hv
        obtain ⟨f, -, rfl⟩ := List.mem_map.mp hv
        exact hpn
      have hrest : (visitsSpec rest (eventsStepOf p evs)).filter (pairVisit pnA pnB) = [] := by
        apply visitsSpec_filter_pair_none e pnA pnB rest
        · simp only [eventsStepOf, hae, if_pos he]
          exact Finset.not_mem_erase e evs
        · exact fun x hx3 h3 => hx1 x (List.mem_cons_of_mem p hx3) h3
      simp only [visitsSpec, List.filter_append, hvo, hkeep, hrest, List.append_nil]
      rw [List.find?_cons_of_pos _ hpn]
    · have hpn2 : ¬(p.packetNum = pnA ∨ p.packetNum = pnB) := by
        simpa [pairPacket] using hpn
      have hnae : p.associatedEvent ≠ some e :=
        fun hc => hpn2 (hx2 p (List.mem_cons_self p rest) hc)
      have he2 : e ∈ eventsStepOf p evs := mem_eventsStepOf_of_ne p evs e he hnae
      have hdrop : (visitsOf p evs).filter (pairVisit pnA pnB) = [] := by
        rw [List.filter_eq_nil_iff]
        intro v hv
        have h1 := visitsOf_fst p evs v hv
        simp only [pairVisit, h1, Bool.or_eq_true, decide_eq_true_eq]
        exact hpn2
      simp only [visitsSpec, List.filter_append, hdrop, List.nil_append]
      rw [ih (eventsStepOf p evs) he2
          (fun x hx3 h3 => hx1 x (List.mem_cons_of_mem p hx3) h3)
          (fun x hx3 h3 => hx2 x (List.mem_cons_of_mem p hx3) h3)]
      rw [List.find?_cons_of_neg _ hpn]

lemma find?_pair_of_sorted :
    ∀ (l : List OutstandingPacket) (p q : OutstandingPacket),
      l.Pairwise (fun a b => b.packetNum < a.packetNum) →
      p ∈ l → q ∈ l → q.packetNum < p.packetNum →
      l.find? (pairPacket p.packetNum q.packetNum) = some p := by
  intro l
  induction l with
  | nil => intro p q _ hp; simp at hp
  | cons a t ih =>
    intro p q hsort hp hq horder
    rcases List.pairwise_cons.mp hsort with ⟨hall, hsort2⟩
    rcases List.mem_cons.mp hp with rfl | hp2
    · rw [List.find?_cons_of_pos]
      simp [pairPacket]
    · have hpa : p.packetNum < a.packetNum := hall p hp2
      have hq2 : q ∈ t := by
        rcases List.mem_cons.mp hq with rfl | h2
        · exact absurd (horder.trans hpa) (lt_irrefl _)
        · exact h2
      have hqa : q.packetNum < a.packetNum := hall q hq2
      rw [List.find?_cons_of_neg]
      · exact ih p q hsort2 hp2 hq2 horder
      · simp only [pairPacket, Bool.or_eq_true, decide_eq_true_eq, not_or]
        omega

lemma sorted_packetNum_inj :
    ∀ (l : List OutstandingPacket),
      l.Pairwise (fun a b => a.packetNum < b.packetNum) →
      ∀ x ∈ l, ∀ y ∈ l, x.packetNum = y.packetNum → x = y := by
  intro l
  induction l with
  | nil => intro _ x hx; simp at hx
  | cons a t ih =>
    intro hsort x hx y hy hxy
    rcases List.pairwise_cons.mp hsort with ⟨hall, hsort2⟩
    rcases List.mem_cons.mp hx with rfl | hx2 <;> rcases List.mem_cons.mp hy with rfl | hy2
    · rfl
    · have := hall y hy2
      exact absurd hxy (by omega)
    · have := hall x hx2
      exact absurd hxy (by omega)
    · exact ih hsort2 x hx2 y hy2 hxy

lemma two_le_length_of_mem {α : Type} {l : List α} {x y : α}
    (hx : x ∈ l) (hy : y ∈ l) (hne : x ≠ y) : 2 ≤ l.length := by
  induction l with
  | nil => simp at hx
  | cons a t ih =>
    rcases List.mem_cons.mp hx with rfl | hx2
    · rcases List.mem_cons.mp hy with rfl | hy2
      · exact absurd rfl hne
      · have h1 := List.length_pos_of_mem hy2
        simp only [List.length_cons]
        omega
    · have h1 := List.length_pos_of_mem hx2
      simp only [List.length_cons]
      omega

/-- Counterexample to C2 as stated: the two clones of event 7 are
packets 1 and 2 of `connDedup`; the frame `frameDedupOne` acknowledges
only packet 2 ("either of them").  The ack-visitor does fire exactly
once across the pair, but packet 1 — the other entry sharing the
event — stays in the ledger: "both entries are removed" fails unless
the frame acknowledges both. -/
theorem dedup_ack_one_clone_leaves_other :
    (processAckFrame connDedup PacketNumberSpace.AppData frameDedupOne lossVisitorNone
        pcAlwaysTrue 9 10).map
        (fun r => ((r.trace.ackVisits.filter (pairVisit 2 1)).length,
          r.conn.outstandings.packets.map (fun p => p.packetNum))) =
      Except.ok (1, [1]) := rfl

/-- Claim C2 (amended): take a ledger whose packets all live in the
target space sorted strictly ascending (the spec's precondition), an
ack frame with blocks sorted strictly descending with real gaps, and
two outstanding entries `p`, `q` (with `q.packetNum < p.packetNum`)
that are exactly the carriers of the pending associated event `e`.  If
the frame acknowledges BOTH entries, then on the completed call the
ack-visitor invocations attributable to the pair are exactly those for
`p` — the entry encountered first in descending packet-number order —
one per carried frame (so exactly one when `p` carries one frame), and
both entries are removed from the ledger; the skipped clone is still
counted: the frame's acked bytes are the sum over all covered entries
(including both clones) and the cloned-packets-acked decrement counts
every covered entry carrying an associated event (at least the two
clones). -/
theorem processAckFrame_dedup_pair (conn : QuicConnectionStateBase)
    (pnSpace : PacketNumberSpace) (frame : ReadAckFrame)
    (lossVisitor : QuicConnectionStateBase → AckEvent → PacketNumberSpace → Option LossEvent)
    (isPersistentCongestion : QuicConnectionStateBase → Nat → Nat → Bool)
    (ackReceiveTime nowClock : Nat) (r : AckProcessResult)
    (p q : OutstandingPacket) (e : Nat)
    (hspace : ∀ x ∈ conn.outstandings.packets, x.pnSpace = pnSpace)
    (hsort : conn.outstandings.packets.Pairwise (fun a b => a.packetNum < b.packetNum))
    (hblocks : frame.ackBlocks.Pairwise (fun b1 b2 => b2.endPacket < b1.startPacket))
    (hwf : ∀ b ∈ frame.ackBlocks, b.startPacket ≤ b.endPacket)
    (hp : p ∈ conn.outstandings.packets) (hq : q ∈ conn.outstandings.packets)
    (horder : q.packetNum < p.packetNum)
    (hpe : p.associatedEvent = some e) (hqe : q.associatedEvent = some e)
    (hpend : e ∈ conn.outstandings.packetEvents)
    (honly : ∀ x ∈ conn.outstandings.packets, x.associatedEvent = some e → x = p ∨ x = q)
    (hcovp : coveredByBlocks frame.ackBlocks p.packetNum = true)
    (hcovq : coveredByBlocks frame.ackBlocks q.packetNum = true)
    (h : processAckFrame conn pnSpace frame lossVisitor isPersistentCongestion
      ackReceiveTime nowClock = Except.ok r) :
    r.trace.ackVisits.filter (pairVisit p.packetNum q.packetNum) =
        p.frames.map (fun f => (p.packetNum, f)) ∧
      p ∉ r.conn.outstandings.packets ∧ q ∉ r.conn.outstandings.packets ∧
      r.ack.ackedBytes =
        ((conn.outstandings.packets.filter
            (fun x => coveredByBlocks frame.ackBlocks x.packetNum)).map
          (fun x => x.encodedSize)).sum ∧
      r.trace.clonedAcked =
        ((conn.outstandings.packets.filter
            (fun x => coveredByBlocks frame.ackBlocks x.packetNum)).filter
          (fun x => x.associatedEvent.isSome)).length ∧
      2 ≤ r.trace.clonedAcked := by
  have F := processAckFrame_ok_facts conn pnSpace frame lossVisitor isPersistentCongestion
    ackReceiveTime nowClock r h
  have hsrev : conn.outstandings.packets.reverse.Pairwise
      (fun a b => b.packetNum < a.packetNum) := by
    rw [List.pairwise_reverse]
    exact hsort
  have hw : walkResult conn pnSpace frame ackReceiveTime nowClock =
      (conn.outstandings.packets.reverse.filter
        (fun x => !coveredByBlocks frame.ackBlocks x.packetNum),
       (conn.outstandings.packets.reverse.filter
          (fun x => coveredByBlocks frame.ackBlocks x.packetNum)).foldl
        (processEntry ⟨pnSpace, frame, ackReceiveTime, nowClock⟩)
        (initAccum conn ackReceiveTime)) :=
    processBlocks_char ⟨pnSpace, frame, ackReceiveTime, nowClock⟩ frame.ackBlocks
      conn.outstandings.packets.reverse (initAccum conn ackReceiveTime)
      (fun x hx => hspace x (List.mem_reverse.mp hx)) hsrev hblocks hwf
  have hpC : p ∈ conn.outstandings.packets.reverse.filter
      (fun x => coveredByBlocks frame.ackBlocks x.packetNum) :=
    List.mem_filter.mpr ⟨List.mem_reverse.mpr hp, hcovp⟩
  have hqC : q ∈ conn.outstandings.packets.reverse.filter
      (fun x => coveredByBlocks frame.ackBlocks x.packetNum) :=
    List.mem_filter.mpr ⟨List.mem_reverse.mpr hq, hcovq⟩
  have hsortC : (conn.outstandings.packets.reverse.filter
      (fun x => coveredByBlocks frame.ackBlocks x.packetNum)).Pairwise
      (fun a b => b.packetNum < a.packetNum) :=
    hsrev.sublist (List.filter_sublist _)
  have hCfacts : ∀ x ∈ conn.outstandings.packets.reverse.filter
      (fun x => coveredByBlocks frame.ackBlocks x.packetNum),
      x ∈ conn.outstandings.packets :=
    fun x hx => List.mem_reverse.mp (List.mem_filter.mp hx).1
  refine ⟨?_, ?_, ?_, ?_, ?_, ?_⟩
  · -- ack-visitor invocations attributable to the pair
    rw [F.ackVisits_eq, hw]
    rw [foldl_processEntry_ackVisits]
    have hinit1 : (initAccum conn ackReceiveTime).ackVisits = [] := rfl
    have hinit2 : (initAccum conn ackReceiveTime).packetEvents =
        conn.outstandings.packetEvents := rfl
    rw [hinit1, hinit2, List.nil_append]
    rw [visitsSpec_filter_pair e p.packetNum q.packetNum _ _ hpend
        (fun x hx hor => by
          rcases hor with h1 | h1
          · have := sorted_packetNum_inj conn.outstandings.packets hsort x (hCfacts x hx)
              p hp h1
            rw [this, hpe]
          · have := sorted_packetNum_inj conn.outstandings.packets hsort x (hCfacts x hx)
              q hq h1
            rw [this, hqe])
        (fun x hx hxe => by
          rcases honly x (hCfacts x hx) hxe with rfl | rfl
          · exact Or.inl rfl
          · exact Or.inr rfl)]
    rw [find?_pair_of_sorted _ p q hsortC hpC hqC horder]
  · -- p removed
    intro hmem
    rw [F.packets_eq, hw] at hmem
    have h2 := (List.mem_filter.mp (List.mem_reverse.mp hmem)).2
    rw [hcovp] at h2
    simp at h2
  · -- q removed
    intro hmem
    rw [F.packets_eq, hw] at hmem
    have h2 := (List.mem_filter.mp (List.mem_reverse.mp hmem)).2
    rw [hcovq] at h2
    simp at h2
  · -- acked bytes count every covered entry, the skipped clone included
    rw [F.ack_eq, hw]
    rw [foldl_processEntry_ackedBytes]
    have hinit : (initAccum conn ackReceiveTime).ack.ackedBytes = 0 := rfl
    rw [hinit, List.filter_reverse, List.map_reverse, List.sum_reverse]
    omega
  · -- the cloned-packets decrement counts every covered clone
    rw [F.clonedAcked_eq, hw]
    rw [foldl_processEntry_cloned]
    have hinit : (initAccum conn ackReceiveTime).clonedPacketsAcked = 0 := rfl
    rw [hinit, List.filter_reverse, List.filter_reverse, List.length_reverse]
    omega
  · -- and that count is at least two
    rw [F.clonedAcked_eq, hw]
    rw [foldl_processEntry_cloned]
    have hne : p ≠ q := by
      intro hc
      rw [hc] at horder
      exact absurd horder (lt_irrefl _)
    have hp2 : p ∈ (conn.outstandings.packets.reverse.filter
        (fun x => coveredByBlocks frame.ackBlocks x.packetNum)).filter
        (fun x => x.associatedEvent.isSome) :=
      List.mem_filter.mpr ⟨hpC, by rw [hpe]; rfl⟩
    have hq2 : q ∈ (conn.outstandings.packets.reverse.filter
        (fun x => coveredByBlocks frame.ackBlocks x.packetNum)).filter
        (fun x => x.associatedEvent.isSome) :=
      List.mem_filter.mpr ⟨hqC, by rw [hqe]; rfl⟩
    have := two_le_length_of_mem hp2 hq2 hne
    omega

/-- Witness for amended C2 at `connDedup` and `frameDedupBoth`: both
clones acked, visitor fires once (for clone 2, encountered first),
both removed, acked bytes 21 = 11 + 10, cloned count 2. -/
theorem processAckFrame_dedup_pair_witness :
    (processAckFrame connDedup PacketNumberSpace.AppData frameDedupBoth lossVisitorNone
        pcAlwaysTrue 9 10 = Except.ok
        ⟨⟨⟨[], ∅, 0, 0, 0⟩, ⟨0, 21, 0, 21, 2, 9⟩, false⟩,
         ⟨9, 21, [⟨2, 11, none, 0, false⟩, ⟨1, 10, none, 0, false⟩], some 2, 2, false, some 7⟩,
         ⟨[(2, 5)], [(7, 0)], 1, none, [], [], 0, 0, 2⟩⟩) ∧
      ([(2, 5)].filter (pairVisit packetClone2.packetNum packetClone1.packetNum) =
        packetClone2.frames.map (fun f => (packetClone2.packetNum, f)) ∧
      packetClone2 ∉ ([] : List OutstandingPacket) ∧
      packetClone1 ∉ ([] : List OutstandingPacket) ∧
      (21 : Nat) =
        ((connDedup.outstandings.packets.filter
            (fun x => coveredByBlocks frameDedupBoth.ackBlocks x.packetNum)).map
          (fun x => x.encodedSize)).sum ∧
      (2 : Nat) =
        ((connDedup.outstandings.packets.filter
            (fun x => coveredByBlocks frameDedupBoth.ackBlocks x.packetNum)).filter
          (fun x => x.associatedEvent.isSome)).length ∧
      2 ≤ (2 : Nat)) :=
  ⟨rfl,
   processAckFrame_dedup_pair connDedup PacketNumberSpace.AppData frameDedupBoth
     lossVisitorNone pcAlwaysTrue 9 10
     ⟨⟨⟨[], ∅, 0, 0, 0⟩, ⟨0, 21, 0, 21, 2, 9⟩, false⟩,
      ⟨9, 21, [⟨2, 11, none, 0, false⟩, ⟨1, 10, none, 0, false⟩], some 2, 2, false, some 7⟩,
      ⟨[(2, 5)], [(7, 0)], 1, none, [], [], 0, 0, 2⟩⟩
     packetClone2 packetClone1 7
     (by decide) (by decide) (by decide) (by decide)
     (by decide) (by decide) (by decide)
     (by decide) (by decide) (by decide)
     (by decide)
     (by decide) (by decide)
     rfl⟩

end quic
